import Mathlib

/-!
# Block index core (`src/block_index.h`)

A shallow embedding of the block index entry of `block_index.h`:

* `BlockValidity`, `BlockStatus`: the validity levels and the packed status
  word with its pure `with*` operations;
* `CBlockIndex`: the index entry with all of its data members; the entries
  live in a `Heap` (address ↦ entry) so that `pprev` pointers, pointer
  comparison and the methods that read the parent through `pprev` can be
  expressed;
* `CBlockIndexWorkComparator`: the ordering used for candidate tips.

Machine integers are unbounded `Nat`/`Int`; the 32-bit complement `~m` of a
status mask is written out as `0xFFFFFFFF ^^^ m`.  The per-entry mutex is
not modelled (every method is executed atomically).
-/

/-! ## Validity levels -/

/-- The enumerators of `enum class BlockValidity : uint32_t`. -/
inductive BlockValidity where
  | UNKNOWN
  | HEADER
  | TREE
  | TRANSACTIONS
  | CHAIN
  | SCRIPTS
  deriving DecidableEq, Repr

/-- Underlying `uint32_t` value of an enumerator. -/
def BlockValidity.toNat : BlockValidity → Nat
  | .UNKNOWN => 0
  | .HEADER => 1
  | .TREE => 2
  | .TRANSACTIONS => 3
  | .CHAIN => 4
  | .SCRIPTS => 5

/-! ## Status word -/

/-- The struct `BlockStatus`: a single `uint32_t status`. -/
structure BlockStatus where
  status : Nat := 0
  deriving DecidableEq, Repr

namespace BlockStatus

def VALIDITY_MASK : Nat := 0x07
def HAS_DATA_FLAG : Nat := 0x08
def HAS_UNDO_FLAG : Nat := 0x10
def FAILED_FLAG : Nat := 0x20
def FAILED_PARENT_FLAG : Nat := 0x40
def HAS_DISK_BLOCK_META_DATA_FLAG : Nat := 0x80
def HAS_SOFT_REJ_FLAG : Nat := 0x100
def INVALID_MASK : Nat := FAILED_FLAG ||| FAILED_PARENT_FLAG

/-- The operator `~m` on `uint32_t`. -/
def not32 (m : Nat) : Nat := 0xFFFFFFFF ^^^ m

/-- The method `getValidity`: the value `status & VALIDITY_MASK`, as the
underlying integer of the returned `BlockValidity` (which can be 6 or 7 for
a status word that was not built from the named levels). -/
def getValidity (s : BlockStatus) : Nat := s.status &&& VALIDITY_MASK

def withValidity (s : BlockStatus) (validity : BlockValidity) : BlockStatus :=
  ⟨(s.status &&& not32 VALIDITY_MASK) ||| validity.toNat⟩

def hasData (s : BlockStatus) : Bool := decide (s.status &&& HAS_DATA_FLAG ≠ 0)

def withData (s : BlockStatus) (hasData : Bool) : BlockStatus :=
  ⟨(s.status &&& not32 HAS_DATA_FLAG) ||| (if hasData then HAS_DATA_FLAG else 0)⟩

def hasUndo (s : BlockStatus) : Bool := decide (s.status &&& HAS_UNDO_FLAG ≠ 0)

def withUndo (s : BlockStatus) (hasUndo : Bool) : BlockStatus :=
  ⟨(s.status &&& not32 HAS_UNDO_FLAG) ||| (if hasUndo then HAS_UNDO_FLAG else 0)⟩

def hasFailed (s : BlockStatus) : Bool := decide (s.status &&& FAILED_FLAG ≠ 0)

def withFailed (s : BlockStatus) (hasFailed : Bool) : BlockStatus :=
  ⟨(s.status &&& not32 FAILED_FLAG) ||| (if hasFailed then FAILED_FLAG else 0)⟩

def hasDiskBlockMetaData (s : BlockStatus) : Bool :=
  decide (s.status &&& HAS_DISK_BLOCK_META_DATA_FLAG ≠ 0)

def withDiskBlockMetaData (s : BlockStatus) (hasData : Bool) : BlockStatus :=
  ⟨(s.status &&& not32 HAS_DISK_BLOCK_META_DATA_FLAG) |||
    (if hasData then HAS_DISK_BLOCK_META_DATA_FLAG else 0)⟩

def hasFailedParent (s : BlockStatus) : Bool :=
  decide (s.status &&& FAILED_PARENT_FLAG ≠ 0)

def withFailedParent (s : BlockStatus) (hasFailedParent : Bool) : BlockStatus :=
  ⟨(s.status &&& not32 FAILED_PARENT_FLAG) |||
    (if hasFailedParent then FAILED_PARENT_FLAG else 0)⟩

def hasDataForSoftRejection (s : BlockStatus) : Bool :=
  decide (s.status &&& HAS_SOFT_REJ_FLAG ≠ 0)

def withDataForSoftRejection (s : BlockStatus) (hasData : Bool) : BlockStatus :=
  ⟨(s.status &&& not32 HAS_SOFT_REJ_FLAG) |||
    (if hasData then HAS_SOFT_REJ_FLAG else 0)⟩

def isInvalid (s : BlockStatus) : Bool := decide (s.status &&& INVALID_MASK ≠ 0)

/-- The method `isValid(nUpTo)`. -/
def isValid (s : BlockStatus) (nUpTo : BlockValidity) : Bool :=
  if s.isInvalid then false
  else decide (s.getValidity ≥ nUpTo.toNat)

/-- The call `isValid()` with the default argument
`nUpTo = BlockValidity::TRANSACTIONS`. -/
def isValidDefault (s : BlockStatus) : Bool := s.isValid BlockValidity.TRANSACTIONS

def withClearedFailureFlags (s : BlockStatus) : BlockStatus :=
  ⟨s.status &&& not32 INVALID_MASK⟩

end BlockStatus

/-! ## Index entry -/

/-- The struct `CDiskBlockMetaData`: hash (`uint256`) and size (`uint64_t`)
of the block data on disk. -/
structure CDiskBlockMetaData where
  diskDataHash : Nat := 0
  diskDataSize : Nat := 0
  deriving DecidableEq, Repr

/-- Modelled from the spec: the fields of `CBlockHeader` (`primitives/block.h`
is not among the sources), the record of version, previous-block hash,
merkle root, time, bits and nonce; a default constructed header is null,
with the zero hash as previous-block hash. -/
structure CBlockHeader where
  nVersion : Int := 0
  hashPrevBlock : Nat := 0
  hashMerkleRoot : Nat := 0
  nTime : Nat := 0
  nBits : Nat := 0
  nNonce : Nat := 0
  deriving DecidableEq, Repr

/-! A `SteadyClockTimePoint`, that is a
`std::chrono::time_point<std::chrono::steady_clock>`, is represented by its
tick count, a signed 64-bit integer, in `Int`. -/

/-- The value `SteadyClockTimePoint::min()`. -/
def SteadyClockTimePoint.min : Int := -(2 ^ 63)

/-- The value `SteadyClockTimePoint::max()`. -/
def SteadyClockTimePoint.max : Int := 2 ^ 63 - 1

/-- The data members of `class CBlockIndex`, with their default member
initialisers.  Pointers are `Option` addresses (`none` is `nullptr`);
`phashBlock` holds the hash it points to. -/
structure CBlockIndex where
  phashBlock : Option Nat := none
  pprev : Option Nat := none
  pskip : Option Nat := none
  nHeight : Int := 0
  nFile : Int := 0
  nDataPos : Nat := 0
  nUndoPos : Nat := 0
  nChainWork : Nat := 0
  nTx : Nat := 0
  nChainTx : Nat := 0
  nStatus : BlockStatus := {}
  nVersion : Int := 0
  hashMerkleRoot : Nat := 0
  nTime : Nat := 0
  nBits : Nat := 0
  nNonce : Nat := 0
  nSequenceId : Int := 0
  nTimeReceived : Nat := 0
  nTimeMax : Nat := 0
  mDiskBlockMetaData : CDiskBlockMetaData := {}
  nSoftRejected : Int := -1
  mValidationCompletionTime : Int := SteadyClockTimePoint.max
  deriving DecidableEq, Repr

namespace CBlockIndex

/-- The constructor `CBlockIndex(const CBlockHeader &block)`. -/
def fromHeader (block : CBlockHeader) : CBlockIndex :=
  { nVersion := block.nVersion
    hashMerkleRoot := block.hashMerkleRoot
    nTime := block.nTime
    nBits := block.nBits
    nNonce := block.nNonce
    nTimeReceived := block.nTime }

def GetBlockTime (e : CBlockIndex) : Int := (e.nTime : Int)

def GetValidationCompletionTime (e : CBlockIndex) : Int :=
  e.mValidationCompletionTime

def IgnoreValidationTime (e : CBlockIndex) : CBlockIndex :=
  { e with mValidationCompletionTime := SteadyClockTimePoint.min }

def IsValid (e : CBlockIndex) (nUpTo : BlockValidity) : Bool :=
  e.nStatus.isValid nUpTo

def ValidityChangeRequiresValidationTimeSetting (e : CBlockIndex)
    (nUpTo : BlockValidity) : Bool :=
  decide (nUpTo = BlockValidity.SCRIPTS) &&
    decide (e.mValidationCompletionTime = SteadyClockTimePoint.max)

/-- The method `RaiseValidity(nUpTo)`; `now` is the reading that
`std::chrono::steady_clock::now()` would give at the call.  Returns the
result of the call and the entry after it. -/
def RaiseValidity (e : CBlockIndex) (now : Int)
    (nUpTo : BlockValidity) : Bool × CBlockIndex :=
  if e.nStatus.isInvalid then (false, e)
  else if e.nStatus.getValidity ≥ nUpTo.toNat then (false, e)
  else
    let e1 :=
      if e.ValidityChangeRequiresValidationTimeSetting nUpTo then
        { e with mValidationCompletionTime := now }
      else e
    (true, { e1 with nStatus := e1.nStatus.withValidity nUpTo })

def IsSoftRejectedNL (e : CBlockIndex) : Bool := decide (e.nSoftRejected ≥ 0)

def GetSoftRejectedFor (e : CBlockIndex) : Int := e.nSoftRejected

end CBlockIndex

/-! ## Entries in memory -/

/-- The memory in which index entries live: an address holds an entry or
nothing. -/
abbrev Heap := Nat → Option CBlockIndex

/-- Write entry `e` at address `p`. -/
def Heap.store (h : Heap) (p : Nat) (e : CBlockIndex) : Heap :=
  fun q => if q = p then some e else h q

/-! ## Work comparator -/

/-- The call `CBlockIndexWorkComparator()(pa, pb)` for two pointers into the
heap; `none` when a pointer does not point to an entry. -/
def CBlockIndexWorkComparator (h : Heap) (pa pb : Nat) : Option Bool :=
  match h pa, h pb with
  | some a, some b =>
    some (
      if a.nChainWork > b.nChainWork then false
      else if a.nChainWork < b.nChainWork then true
      else if a.GetValidationCompletionTime < b.GetValidationCompletionTime then false
      else if a.GetValidationCompletionTime > b.GetValidationCompletionTime then true
      else if a.nSequenceId < b.nSequenceId then false
      else if a.nSequenceId > b.nSequenceId then true
      else if pa < pb then false
      else if pa > pb then true
      else false)
  | _, _ => none

/-- The method `IgnoreValidationTime` called on the entry at address `p`. -/
def Heap.IgnoreValidationTime (h : Heap) (p : Nat) : Option Heap :=
  match h p with
  | none => none
  | some e => some (h.store p e.IgnoreValidationTime)

/-! ## Median time past -/

def nMedianTimeSpan : Nat := 11

/-- The loop of `GetMedianTimePast`: `n` is the number of iterations that
are left (`nMedianTimeSpan - i`), `pindex` the current pointer; the result is
the vector `block_times` in `push_back` order, `none` when a non-null
pointer does not point to an entry. -/
def collectBlockTimes (h : Heap) : Nat → Option Nat → Option (List Int)
  | 0, _ => some []
  | _ + 1, none => some []
  | n + 1, some pindex =>
    match h pindex with
    | none => none
    | some e =>
      match collectBlockTimes h n e.pprev with
      | none => none
      | some block_times => some (e.GetBlockTime :: block_times)

/-- The library call `std::nth_element(first, first + n, last)`, which
leaves at position `n` the element that is there in the sorted range.  A
full sort is one admissible rearrangement, and the only position that
`GetMedianTimePast` reads afterwards is `n`. -/
def nth_element (block_times : List Int) (_n : Nat) : List Int :=
  block_times.insertionSort (· ≤ ·)

/-- The method `GetMedianTimePast` called on the entry at address `this`. -/
def GetMedianTimePast (h : Heap) (this : Nat) : Option Int :=
  match collectBlockTimes h nMedianTimeSpan (some this) with
  | none => none
  | some block_times =>
    (nth_element block_times (block_times.length / 2))[block_times.length / 2]?

/-- Whether `path` lists the addresses met from `pindex` along `pprev` down
to an entry without parent. -/
def isPathToRoot (h : Heap) : Option Nat → List Nat → Bool
  | none, [] => true
  | some p, q :: rest =>
    decide (p = q) &&
      (match h p with
       | none => false
       | some e => isPathToRoot h e.pprev rest)
  | _, _ => false

/-- The block times of the entries at the addresses of `path`. -/
def pathTimes (h : Heap) (path : List Nat) : List Int :=
  path.filterMap (fun q => (h q).map CBlockIndex.GetBlockTime)

/-- Order statistics of a multiset of times, given as a list: `r` is the
`i`-th smallest element (counted from 1) of `T` when it occurs in `T`, fewer
than `i` elements are below it and at least `i` elements are not above
it. -/
def IsKthSmallest (T : List Int) (i : Nat) (r : Int) : Prop :=
  r ∈ T ∧ T.countP (fun x => decide (x < r)) < i ∧
    i ≤ T.countP (fun x => decide (x ≤ r))

instance (T : List Int) (i : Nat) (r : Int) : Decidable (IsKthSmallest T i r) := by
  unfold IsKthSmallest
  infer_instance

/-! ## Soft rejection -/

namespace CBlockIndex

/-- The method `ShouldBeConsideredSoftRejectedBecauseOfParentNL`; `none`
when `assert(pprev)` fails or `pprev` does not point to an entry. -/
def ShouldBeConsideredSoftRejectedBecauseOfParentNL (h : Heap) (e : CBlockIndex) :
    Option Bool :=
  match e.pprev with
  | none => none
  | some pp =>
    match h pp with
    | none => none
    | some parent => some (decide (parent.nSoftRejected > 0))

end CBlockIndex

/-- The method `SetSoftRejectedFor(numBlocks)` called on the entry at address
`this`; `none` when an assertion fails. -/
def SetSoftRejectedFor (h : Heap) (this : Nat) (numBlocks : Int) : Option Heap :=
  match h this with
  | none => none
  | some e =>
    if ¬ (numBlocks ≥ -1) then none
    else
      match e.ShouldBeConsideredSoftRejectedBecauseOfParentNL h with
      | none => none
      | some true => none
      | some false =>
        let e1 := { e with nSoftRejected := numBlocks }
        some (h.store this
          { e1 with nStatus := e1.nStatus.withDataForSoftRejection e1.IsSoftRejectedNL })

/-- The method `SetSoftRejectedFromParent()` called on the entry at address
`this`. -/
def SetSoftRejectedFromParent (h : Heap) (this : Nat) : Option Heap :=
  match h this with
  | none => none
  | some e =>
    match e.ShouldBeConsideredSoftRejectedBecauseOfParentNL h with
    | none => none
    | some true =>
      match e.pprev.bind h with
      | none => none
      | some parent =>
        some (h.store this
          { e with
            nSoftRejected := parent.nSoftRejected - 1
            nStatus := e.nStatus.withDataForSoftRejection true })
    | some false =>
      some (h.store this
        { e with
          nSoftRejected := -1
          nStatus := e.nStatus.withDataForSoftRejection false })

/-- The calls `SetSoftRejectedFromParent()` on the entries at the addresses
`ds`, one after the other in list order. -/
def SetSoftRejectedFromParentEach (h : Heap) : List Nat → Option Heap
  | [] => some h
  | d :: ds =>
    match SetSoftRejectedFromParent h d with
    | none => none
    | some h1 => SetSoftRejectedFromParentEach h1 ds

/-- Whether `ds` is a chain of descendants of the entry at `p`: the first
entry of `ds` has `pprev = p` and every further one has the one before it as
`pprev`. -/
def isDescendantChain (h : Heap) : Nat → List Nat → Bool
  | _, [] => true
  | p, d :: ds =>
    (match h d with
     | none => false
     | some e => decide (e.pprev = some p)) && isDescendantChain h d ds

/-- One step of the propagation: the counter of a child derived from the
counter `x` of its parent. -/
def softRejectedFromParentValue (x : Int) : Int := if x > 0 then x - 1 else -1

/-! ## Disk location, persistent data, chain work -/

/-- Modelled from the spec: the struct `CDiskBlockPos` of `disk_block_pos.h`,
which is not among the sources, is a position: a file number and an offset,
read with `File()` and `Pos()` and built with `{ file, offset }`. -/
structure CDiskBlockPos where
  nFile : Int
  nPos : Nat
  deriving DecidableEq, Repr

def CDiskBlockPos.File (pos : CDiskBlockPos) : Int := pos.nFile

def CDiskBlockPos.Pos (pos : CDiskBlockPos) : Nat := pos.nPos

namespace CBlockIndex

/-- The method `GetBlockPosNL`; `null` is the default constructed (empty)
position, the value of `return {}`. -/
def GetBlockPosNL (null : CDiskBlockPos) (e : CBlockIndex) : CDiskBlockPos :=
  if e.nStatus.hasData then { nFile := e.nFile, nPos := e.nDataPos }
  else null

/-- The method `GetBlockPos` (`GetBlockPosNL` under the entry's lock). -/
def GetBlockPos (null : CDiskBlockPos) (e : CBlockIndex) : CDiskBlockPos :=
  e.GetBlockPosNL null

/-- The method `GetUndoPosNL`; `null` as in `GetBlockPosNL`. -/
def GetUndoPosNL (null : CDiskBlockPos) (e : CBlockIndex) : CDiskBlockPos :=
  if e.nStatus.hasUndo then { nFile := e.nFile, nPos := e.nUndoPos }
  else null

def GetDiskBlockMetaData (e : CBlockIndex) : CDiskBlockMetaData := e.mDiskBlockMetaData

/-- The method `SetDiskBlockMetaData(hash, size)`; `none` when an assertion
fails.  A hash is null when all of its bits are zero. -/
def SetDiskBlockMetaData (e : CBlockIndex) (hash size : Nat) : Option CBlockIndex :=
  if hash = 0 then none
  else if ¬ (size > 0) then none
  else
    some { e with
      mDiskBlockMetaData := { diskDataHash := hash, diskDataSize := size }
      nStatus := e.nStatus.withDiskBlockMetaData true }

/-- The method `SetDiskBlockData(transactionsCount, pos, metaData)`; `now` is
the clock reading handed to `RaiseValidity`.  The `size_t` count is stored
in the `unsigned int` field `nTx`. -/
def SetDiskBlockData (e : CBlockIndex) (now : Int) (transactionsCount : Nat)
    (pos : CDiskBlockPos) (metaData : CDiskBlockMetaData) : CBlockIndex :=
  let e1 : CBlockIndex :=
    { e with
      nTx := transactionsCount % 2 ^ 32
      nChainTx := 0
      nFile := pos.File
      nDataPos := pos.Pos
      nUndoPos := 0
      nStatus := e.nStatus.withData true }
  let e2 : CBlockIndex := (e1.RaiseValidity now BlockValidity.TRANSACTIONS).2
  if metaData.diskDataHash ≠ 0 ∧ metaData.diskDataSize ≠ 0 then
    { e2 with
      mDiskBlockMetaData := metaData
      nStatus := e2.nStatus.withDiskBlockMetaData true }
  else e2

def ClearFileInfo (e : CBlockIndex) : CBlockIndex :=
  { e with
    nStatus := ((e.nStatus.withData false).withUndo false).withDiskBlockMetaData false
    nFile := 0
    nDataPos := 0
    nUndoPos := 0
    mDiskBlockMetaData := {} }

def LoadFromPersistentData (e other : CBlockIndex) (previous : Option Nat) : CBlockIndex :=
  { e with
    pprev := previous
    nHeight := other.nHeight
    nFile := other.nFile
    nDataPos := other.nDataPos
    nUndoPos := other.nUndoPos
    nVersion := other.nVersion
    hashMerkleRoot := other.hashMerkleRoot
    nTime := other.nTime
    nBits := other.nBits
    nNonce := other.nNonce
    nStatus := other.nStatus
    nTx := other.nTx
    mDiskBlockMetaData := other.mDiskBlockMetaData
    nSoftRejected := other.nSoftRejected
    mValidationCompletionTime := other.mValidationCompletionTime }

/-- The method `IsSoftRejected` (`IsSoftRejectedNL` under the entry's lock). -/
def IsSoftRejected (e : CBlockIndex) : Bool := e.IsSoftRejectedNL

end CBlockIndex

/-- The method `SetChainWork()` called on the entry at address `this`.  The
function `GetBlockProof` is only declared in the header and is a parameter;
`arith_uint256` addition is modulo `2 ^ 256`. -/
def SetChainWork (GetBlockProof : CBlockIndex → Nat) (h : Heap) (this : Nat) :
    Option Heap :=
  match h this with
  | none => none
  | some e =>
    match e.pprev with
    | none => some (h.store this { e with nChainWork := (0 + GetBlockProof e) % 2 ^ 256 })
    | some pp =>
      match h pp with
      | none => none
      | some parent =>
        some (h.store this
          { e with nChainWork := (parent.nChainWork + GetBlockProof e) % 2 ^ 256 })

/-- How a call of a method with assertions ends: it returns, leaving the
memory `h`, or an assertion fails while the memory is `h`. -/
inductive Outcome where
  | returned (h : Heap)
  | assertionFailed (h : Heap)

/-- The method `SetSoftRejectedFor(numBlocks)` called on the entry at address
`this`, with the memory at the moment of a failing assertion kept; `none`
when `this` or a non-null `pprev` does not point to an entry. -/
def SetSoftRejectedForOutcome (h : Heap) (this : Nat) (numBlocks : Int) : Option Outcome :=
  match h this with
  | none => none
  | some e =>
    if ¬ (numBlocks ≥ -1) then some (Outcome.assertionFailed h)
    else
      match e.pprev with
      | none => some (Outcome.assertionFailed h)
      | some pp =>
        match h pp with
        | none => none
        | some parent =>
          if parent.nSoftRejected > 0 then some (Outcome.assertionFailed h)
          else
            let e1 := { e with nSoftRejected := numBlocks }
            some (Outcome.returned (h.store this
              { e1 with
                nStatus := e1.nStatus.withDataForSoftRejection e1.IsSoftRejectedNL }))

/-- A call of one of the mutating methods of an entry, with its arguments
(and the clock reading where the method may read the clock). -/
inductive Call where
  | SetSoftRejectedFor (numBlocks : Int)
  | SetSoftRejectedFromParent
  | RaiseValidity (now : Int) (nUpTo : BlockValidity)
  | SetDiskBlockData (now : Int) (transactionsCount : Nat) (pos : CDiskBlockPos)
      (metaData : CDiskBlockMetaData)
  | SetDiskBlockMetaData (hash size : Nat)
  | ClearFileInfo
  | SetChainWork
  | IgnoreValidationTime

/-- The call `c` made on the entry at address `this`; `none` when an
assertion fails or a pointer that is followed does not point to an entry. -/
def Heap.call (GetBlockProof : CBlockIndex → Nat) (h : Heap) (this : Nat) :
    Call → Option Heap
  | Call.SetSoftRejectedFor numBlocks => SetSoftRejectedFor h this numBlocks
  | Call.SetSoftRejectedFromParent => SetSoftRejectedFromParent h this
  | Call.RaiseValidity now nUpTo =>
    match h this with
    | none => none
    | some e => some (h.store this (e.RaiseValidity now nUpTo).2)
  | Call.SetDiskBlockData now transactionsCount pos metaData =>
    match h this with
    | none => none
    | some e => some (h.store this (e.SetDiskBlockData now transactionsCount pos metaData))
  | Call.SetDiskBlockMetaData hash size =>
    match h this with
    | none => none
    | some e =>
      match e.SetDiskBlockMetaData hash size with
      | none => none
      | some e1 => some (h.store this e1)
  | Call.ClearFileInfo =>
    match h this with
    | none => none
    | some e => some (h.store this e.ClearFileInfo)
  | Call.SetChainWork => SetChainWork GetBlockProof h this
  | Call.IgnoreValidationTime => h.IgnoreValidationTime this

/-- A sequence of calls, each with the address of the entry it is made on. -/
def Heap.calls (GetBlockProof : CBlockIndex → Nat) : Heap → List (Nat × Call) → Option Heap
  | h, [] => some h
  | h, (this, c) :: cs =>
    match h.call GetBlockProof this c with
    | none => none
    | some h1 => Heap.calls GetBlockProof h1 cs

/-- The soft-rejection invariant of an entry: the counter is at least -1,
and HAS_SOFT_REJ is set iff the counter is at least 0 iff `IsSoftRejected()`
returns true. -/
def SoftRejectionInvariant (e : CBlockIndex) : Prop :=
  e.nSoftRejected ≥ -1 ∧
  (e.nStatus.hasDataForSoftRejection = true ↔ e.nSoftRejected ≥ 0) ∧
  (e.nSoftRejected ≥ 0 ↔ e.IsSoftRejected = true)

instance (e : CBlockIndex) : Decidable (SoftRejectionInvariant e) := by
  unfold SoftRejectionInvariant
  infer_instance

/-- The disk-location invariant of an entry: the data offset is non-zero iff
HAS_DATA is set, the undo offset is non-zero iff HAS_UNDO is set, and the
disk-meta pair is set (non-null hash, non-zero size) iff
HAS_DISK_BLOCK_META_DATA is set. -/
def DiskLocationInvariant (e : CBlockIndex) : Prop :=
  (e.nDataPos ≠ 0 ↔ e.nStatus.hasData = true) ∧
  (e.nUndoPos ≠ 0 ↔ e.nStatus.hasUndo = true) ∧
  ((e.mDiskBlockMetaData.diskDataHash ≠ 0 ∧ e.mDiskBlockMetaData.diskDataSize ≠ 0) ↔
    e.nStatus.hasDiskBlockMetaData = true)

instance (e : CBlockIndex) : Decidable (DiskLocationInvariant e) := by
  unfold DiskLocationInvariant
  infer_instance

/-! ## Block header of an entry -/

/-- The method `GetBlockHash`, which reads `*phashBlock`; `none` when
`phashBlock` is null. -/
def CBlockIndex.GetBlockHash (e : CBlockIndex) : Option Nat := e.phashBlock

/-- The method `GetBlockHeader` called on the entry at address `this`;
`none` when a pointer that is followed does not point to an entry or to a
hash. -/
def GetBlockHeader (h : Heap) (this : Nat) : Option CBlockHeader :=
  match h this with
  | none => none
  | some e =>
    let block : CBlockHeader := {}
    let block := { block with nVersion := e.nVersion }
    match e.pprev with
    | none =>
      some { block with
        hashMerkleRoot := e.hashMerkleRoot
        nTime := e.nTime
        nBits := e.nBits
        nNonce := e.nNonce }
    | some pp =>
      match h pp with
      | none => none
      | some parent =>
        match parent.GetBlockHash with
        | none => none
        | some hash =>
          some { block with
            hashPrevBlock := hash
            hashMerkleRoot := e.hashMerkleRoot
            nTime := e.nTime
            nBits := e.nBits
            nNonce := e.nNonce }

/-! ## Sequences of status operations -/

/-- One of the `with` operations of `BlockStatus`, with its argument. -/
inductive StatusOp where
  | withValidity (validity : BlockValidity)
  | withData (hasData : Bool)
  | withUndo (hasUndo : Bool)
  | withFailed (hasFailed : Bool)
  | withFailedParent (hasFailedParent : Bool)
  | withDiskBlockMetaData (hasData : Bool)
  | withDataForSoftRejection (hasData : Bool)
  | withClearedFailureFlags

/-- The status returned by the operation `op` called on `s`. -/
def BlockStatus.applyOp (s : BlockStatus) : StatusOp → BlockStatus
  | StatusOp.withValidity validity => s.withValidity validity
  | StatusOp.withData hasData => s.withData hasData
  | StatusOp.withUndo hasUndo => s.withUndo hasUndo
  | StatusOp.withFailed hasFailed => s.withFailed hasFailed
  | StatusOp.withFailedParent hasFailedParent => s.withFailedParent hasFailedParent
  | StatusOp.withDiskBlockMetaData hasData => s.withDiskBlockMetaData hasData
  | StatusOp.withDataForSoftRejection hasData => s.withDataForSoftRejection hasData
  | StatusOp.withClearedFailureFlags => s.withClearedFailureFlags

/-- The status reached from `s` by the operations `ops`, each called on the
result of the one before. -/
def BlockStatus.applyOps (s : BlockStatus) (ops : List StatusOp) : BlockStatus :=
  ops.foldl BlockStatus.applyOp s

/-- What the getters of a status return: the validity level and the six
flags. -/
structure StatusView where
  validity : Nat
  hasData : Bool
  hasUndo : Bool
  hasFailed : Bool
  hasFailedParent : Bool
  hasDiskBlockMetaData : Bool
  hasDataForSoftRejection : Bool
  deriving DecidableEq, Repr

def BlockStatus.view (s : BlockStatus) : StatusView :=
  { validity := s.getValidity
    hasData := s.hasData
    hasUndo := s.hasUndo
    hasFailed := s.hasFailed
    hasFailedParent := s.hasFailedParent
    hasDiskBlockMetaData := s.hasDiskBlockMetaData
    hasDataForSoftRejection := s.hasDataForSoftRejection }

/-- The status word that packs a view: validity in bits 0-2, then one bit
per flag in the order HAS_DATA, HAS_UNDO, FAILED, FAILED_PARENT,
HAS_DISK_BLOCK_META_DATA, HAS_SOFT_REJ. -/
def StatusView.word (w : StatusView) : Nat :=
  w.validity + 8 * w.hasData.toNat + 16 * w.hasUndo.toNat + 32 * w.hasFailed.toNat +
    64 * w.hasFailedParent.toNat + 128 * w.hasDiskBlockMetaData.toNat +
    256 * w.hasDataForSoftRejection.toNat

/-- That the validity level did not go down from `e` to `e1` and the FAILED
and FAILED_PARENT bits are the same. -/
def ValidityKept (e e1 : CBlockIndex) : Prop :=
  e1.nStatus.getValidity ≥ e.nStatus.getValidity ∧
  e1.nStatus.hasFailed = e.nStatus.hasFailed ∧
  e1.nStatus.hasFailedParent = e.nStatus.hasFailedParent

/-! ## Scenarios -/

/-- Two tips with equal chain work: `A` at address 1 with validation time 5
and sequence id 7, `B` at address 2 with validation time 8 and sequence
id 9. -/
def tieBreakHeap : Heap := fun p =>
  if p = 1 then
    some { nChainWork := 10, mValidationCompletionTime := 5, nSequenceId := 7 }
  else if p = 2 then
    some { nChainWork := 10, mValidationCompletionTime := 8, nSequenceId := 9 }
  else none

/-- Two tips with equal chain work: `A` at address 1 validated at time 5 with
sequence id 9, `B` at address 2 with sequence id 7 whose validation time is
the minimum sentinel (as after an earlier `IgnoreValidationTime` on `B`). -/
def preciousHeap : Heap := fun p =>
  if p = 1 then
    some { nChainWork := 10, mValidationCompletionTime := 5, nSequenceId := 9 }
  else if p = 2 then
    some { nChainWork := 10, mValidationCompletionTime := SteadyClockTimePoint.min,
           nSequenceId := 7 }
  else none

/-- A chain of `len` entries at addresses 1 (genesis) to `len`; the entry
at address `p` has time `100 * p` and `pprev = p - 1`. -/
def timeChainHeap (len : Nat) : Heap := fun p =>
  if p = 0 ∨ len < p then none
  else some { nTime := 100 * p, nHeight := (p : Int) - 1,
              pprev := if p = 1 then none else some (p - 1) }

/-- The chain g, a, b, c, d of freshly constructed entries at addresses
1, 2, 3, 4, 5. -/
def softRejectionHeap : Heap := fun p =>
  if p = 0 ∨ 5 < p then none
  else some { nHeight := (p : Int) - 1, pprev := if p = 1 then none else some (p - 1) }

/-- The chain g, a, b, c, d at addresses 1, 2, 3, 4, 5 as it is after
`SetSoftRejectedFor(2)` on a and the propagation to b and c: counters
-1, 2, 1, 0, -1, with HAS_SOFT_REJ set on a, b and c. -/
def softRejectedHeap : Heap := fun p =>
  if p = 0 ∨ 5 < p then none
  else some { nHeight := (p : Int) - 1, pprev := if p = 1 then none else some (p - 1),
              nSoftRejected := if p = 2 then 2 else if p = 3 then 1 else if p = 4 then 0 else -1,
              nStatus := if 2 ≤ p ∧ p ≤ 4 then ⟨0x100⟩ else ⟨0⟩ }

/-- A sequence of calls on the chain g, a, b, c, d (`softRejectionHeap`):
a is soft rejected for 2 blocks, b takes its value from a and then goes
through the other mutating methods. -/
def softRejectionCalls : List (Nat × Call) :=
  [(2, Call.SetSoftRejectedFor 2),
   (3, Call.SetSoftRejectedFromParent),
   (3, Call.RaiseValidity 0 BlockValidity.TREE),
   (3, Call.SetDiskBlockData 0 1 { nFile := 0, nPos := 8 } {}),
   (3, Call.SetDiskBlockMetaData 1 1),
   (3, Call.ClearFileInfo),
   (3, Call.SetChainWork),
   (3, Call.IgnoreValidationTime)]

/-- A parent at address 1 whose block hash is 77 and, at address 2, the
entry constructed from a header with previous-block hash 77 and linked to
that parent. -/
def headerHeap : Heap := fun p =>
  if p = 1 then some { phashBlock := some 77 }
  else if p = 2 then
    some { CBlockIndex.fromHeader
            { nVersion := 2, hashPrevBlock := 77, hashMerkleRoot := 5, nTime := 100,
              nBits := 3, nNonce := 9 } with
           pprev := some 1, nHeight := 1 }
  else none

/-! ## Status word: bit-level lemmas -/

theorem and_or_and_of_disjoint (s m v f : Nat) (hm : m &&& f = f) (hv : v &&& f = 0) :
    ((s &&& m) ||| v) &&& f = s &&& f := by
  rw [Nat.and_distrib_right, Nat.and_assoc, hm, hv, Nat.or_zero]

theorem getValidity_withValidity (s : BlockStatus) (v : BlockValidity) :
    (s.withValidity v).getValidity = v.toNat := by
  unfold BlockStatus.withValidity BlockStatus.getValidity
  show ((s.status &&& BlockStatus.not32 7) ||| v.toNat) &&& 7 = v.toNat
  rw [Nat.and_distrib_right, Nat.and_assoc]
  have h0 : BlockStatus.not32 7 &&& 7 = 0 := by decide
  have h7 : v.toNat &&& 7 = v.toNat := by cases v <;> decide
  rw [h0, h7]
  simp

theorem withValidity_and_flag (s : BlockStatus) (v : BlockValidity) (f : Nat)
    (hm : BlockStatus.not32 BlockStatus.VALIDITY_MASK &&& f = f) (hf : f &&& 7 = 0) :
    (s.withValidity v).status &&& f = s.status &&& f := by
  unfold BlockStatus.withValidity
  apply and_or_and_of_disjoint _ _ _ _ hm
  have h7 : v.toNat &&& 7 = v.toNat := by cases v <;> decide
  rw [← h7, Nat.and_assoc, Nat.and_comm 7 f, hf]
  simp

theorem isInvalid_iff (s : BlockStatus) :
    s.isInvalid = true ↔ (s.hasFailed = true ∨ s.hasFailedParent = true) := by
  unfold BlockStatus.isInvalid BlockStatus.hasFailed BlockStatus.hasFailedParent
    BlockStatus.INVALID_MASK
  rw [Nat.and_or_distrib_left]
  simp only [decide_eq_true_eq, ne_eq]
  constructor
  · intro h
    by_contra hc
    push_neg at hc
    apply h
    rw [hc.1, hc.2]
    rfl
  · intro h hc
    have h1 : s.status &&& BlockStatus.FAILED_FLAG = 0 := by
      apply Nat.eq_of_testBit_eq
      intro i
      have := congrArg (fun n => Nat.testBit n i) hc
      simp only [Nat.testBit_or, Nat.zero_testBit, Bool.or_eq_false_iff] at this
      simpa using this.1
    have h2 : s.status &&& BlockStatus.FAILED_PARENT_FLAG = 0 := by
      apply Nat.eq_of_testBit_eq
      intro i
      have := congrArg (fun n => Nat.testBit n i) hc
      simp only [Nat.testBit_or, Nat.zero_testBit, Bool.or_eq_false_iff] at this
      simpa using this.2
    rcases h with h | h
    · exact h h1
    · exact h h2

/-! ## Validity: `isValid`, `isInvalid`, `RaiseValidity` -/

/-- Claim C1: a status is invalid iff it has FAILED or FAILED_PARENT; it is
valid up to level `v` iff it is not invalid and its validity is at least
`v`; `isValid()` without an argument is `isValid(TRANSACTIONS)`; and
`CBlockIndex::IsValid` forwards to the status of the entry. -/
theorem C1_isValid_spec (s : BlockStatus) (v : BlockValidity) (e : CBlockIndex) :
    (s.isInvalid = true ↔ (s.hasFailed = true ∨ s.hasFailedParent = true)) ∧
    (s.isValid v = true ↔ (s.isInvalid = false ∧ s.getValidity ≥ v.toNat)) ∧
    s.isValidDefault = s.isValid BlockValidity.TRANSACTIONS ∧
    (e.IsValid v = true ↔
      (e.nStatus.isInvalid = false ∧ e.nStatus.getValidity ≥ v.toNat)) := by
  have key : ∀ t : BlockStatus,
      t.isValid v = true ↔ (t.isInvalid = false ∧ t.getValidity ≥ v.toNat) := by
    intro t
    unfold BlockStatus.isValid
    cases ht : t.isInvalid <;> simp
  exact ⟨isInvalid_iff s, key s, rfl, key e.nStatus⟩

/-- Claim C2: `RaiseValidity(v)` returns false and leaves the entry unchanged
when the status is invalid or the validity is already at least `v`;
otherwise it returns true, the new validity is `v`, strictly above the old
one, and every flag of the status word is unchanged.  It returns true iff
the validity changed. -/
theorem C2_RaiseValidity_spec (e : CBlockIndex) (now : Int)
    (v : BlockValidity) :
    ((e.nStatus.isInvalid = true ∨ e.nStatus.getValidity ≥ v.toNat) →
      e.RaiseValidity now v = (false, e)) ∧
    (¬ (e.nStatus.isInvalid = true ∨ e.nStatus.getValidity ≥ v.toNat) →
      (e.RaiseValidity now v).1 = true ∧
      (e.RaiseValidity now v).2.nStatus.getValidity = v.toNat ∧
      e.nStatus.getValidity < v.toNat ∧
      (e.RaiseValidity now v).2.nStatus.hasData = e.nStatus.hasData ∧
      (e.RaiseValidity now v).2.nStatus.hasUndo = e.nStatus.hasUndo ∧
      (e.RaiseValidity now v).2.nStatus.hasFailed = e.nStatus.hasFailed ∧
      (e.RaiseValidity now v).2.nStatus.hasFailedParent = e.nStatus.hasFailedParent ∧
      (e.RaiseValidity now v).2.nStatus.hasDiskBlockMetaData =
        e.nStatus.hasDiskBlockMetaData ∧
      (e.RaiseValidity now v).2.nStatus.hasDataForSoftRejection =
        e.nStatus.hasDataForSoftRejection) ∧
    ((e.RaiseValidity now v).1 = true ↔
      (e.RaiseValidity now v).2.nStatus.getValidity ≠ e.nStatus.getValidity) := by
  have hst : ∀ b : Bool,
      (if b = true then ({ e with mValidationCompletionTime := now } : CBlockIndex)
        else e).nStatus = e.nStatus := by
    intro b; cases b <;> rfl
  by_cases hinv : e.nStatus.isInvalid = true
  · have hr : e.RaiseValidity now v = (false, e) := by
      unfold CBlockIndex.RaiseValidity
      rw [if_pos hinv]
    refine ⟨fun _ => hr, fun hn => absurd (Or.inl hinv) hn, ?_⟩
    rw [hr]
    simp
  · by_cases hge : e.nStatus.getValidity ≥ v.toNat
    · have hr : e.RaiseValidity now v = (false, e) := by
        unfold CBlockIndex.RaiseValidity
        rw [if_neg hinv, if_pos hge]
      refine ⟨fun _ => hr, fun hn => absurd (Or.inr hge) hn, ?_⟩
      rw [hr]
      simp
    · have hr : e.RaiseValidity now v =
          (true, { (if e.ValidityChangeRequiresValidationTimeSetting v = true then
              ({ e with mValidationCompletionTime := now } : CBlockIndex) else e) with
            nStatus := (if e.ValidityChangeRequiresValidationTimeSetting v = true then
              ({ e with mValidationCompletionTime := now } : CBlockIndex)
                else e).nStatus.withValidity v }) := by
        unfold CBlockIndex.RaiseValidity
        rw [if_neg hinv, if_neg hge]
      have hs : (e.RaiseValidity now v).2.nStatus = e.nStatus.withValidity v := by
        rw [hr]
        show (BlockStatus.withValidity _ v) = _
        rw [hst]
      have hlt : e.nStatus.getValidity < v.toNat := Nat.lt_of_not_ge hge
      refine ⟨fun h => ?_, fun _ => ⟨?_, ?_, hlt, ?_, ?_, ?_, ?_, ?_, ?_⟩, ?_⟩
      · rcases h with h | h
        · exact absurd h hinv
        · exact absurd h hge
      · rw [hr]
      · rw [hs, getValidity_withValidity]
      · rw [hs]; unfold BlockStatus.hasData
        rw [withValidity_and_flag _ _ _ (by decide) (by decide)]
      · rw [hs]; unfold BlockStatus.hasUndo
        rw [withValidity_and_flag _ _ _ (by decide) (by decide)]
      · rw [hs]; unfold BlockStatus.hasFailed
        rw [withValidity_and_flag _ _ _ (by decide) (by decide)]
      · rw [hs]; unfold BlockStatus.hasFailedParent
        rw [withValidity_and_flag _ _ _ (by decide) (by decide)]
      · rw [hs]; unfold BlockStatus.hasDiskBlockMetaData
        rw [withValidity_and_flag _ _ _ (by decide) (by decide)]
      · rw [hs]; unfold BlockStatus.hasDataForSoftRejection
        rw [withValidity_and_flag _ _ _ (by decide) (by decide)]
      · rw [hs, getValidity_withValidity, hr]
        simp only [true_iff]
        exact Nat.ne_of_gt hlt

theorem RaiseValidity_time_changes (e : CBlockIndex) (now : Int)
    (v : BlockValidity)
    (h : (e.RaiseValidity now v).2.GetValidationCompletionTime ≠
      e.GetValidationCompletionTime) :
    (e.RaiseValidity now v).1 = true ∧ v = BlockValidity.SCRIPTS ∧
      e.GetValidationCompletionTime = SteadyClockTimePoint.max ∧
      (e.RaiseValidity now v).2.GetValidationCompletionTime = now := by
  unfold CBlockIndex.RaiseValidity at h ⊢
  by_cases hinv : e.nStatus.isInvalid = true
  · rw [if_pos hinv] at h
    exact absurd rfl h
  · by_cases hge : e.nStatus.getValidity ≥ v.toNat
    · rw [if_neg hinv, if_pos hge] at h
      exact absurd rfl h
    · rw [if_neg hinv, if_neg hge] at h ⊢
      by_cases hreq : e.ValidityChangeRequiresValidationTimeSetting v = true
      · have hreq' := hreq
        unfold CBlockIndex.ValidityChangeRequiresValidationTimeSetting at hreq'
        simp only [Bool.and_eq_true, decide_eq_true_eq] at hreq'
        simp only [hreq, if_true]
        exact ⟨trivial, hreq'.1, hreq'.2, rfl⟩
      · simp only [hreq] at h
        exact absurd rfl h

/-- Claim C3: on a freshly constructed entry (from any header, or default
constructed) `RaiseValidity(TRANSACTIONS)` succeeds and leaves the
validation-completion time at the maximum sentinel; the following
`RaiseValidity(SCRIPTS)` succeeds and stamps the time with the clock reading
`now`; a later `RaiseValidity(SCRIPTS)` returns false and changes nothing.
Whenever `RaiseValidity` changes the validation-completion time, the raise
succeeded, the target was SCRIPTS, the stored time was the maximum sentinel
and the new time is the clock reading. -/
theorem C3_RaiseValidity_validation_time (block : CBlockHeader)
    (now0 now now2 : Int) (e : CBlockIndex) (t : Int)
    (v : BlockValidity) :
    ((CBlockIndex.fromHeader block).GetValidationCompletionTime = SteadyClockTimePoint.max) ∧
    ((CBlockIndex.fromHeader block).RaiseValidity now0 BlockValidity.TRANSACTIONS).1 = true ∧
    ((CBlockIndex.fromHeader block).RaiseValidity now0
      BlockValidity.TRANSACTIONS).2.GetValidationCompletionTime = SteadyClockTimePoint.max ∧
    (((CBlockIndex.fromHeader block).RaiseValidity now0
      BlockValidity.TRANSACTIONS).2.RaiseValidity now BlockValidity.SCRIPTS).1 = true ∧
    (((CBlockIndex.fromHeader block).RaiseValidity now0
      BlockValidity.TRANSACTIONS).2.RaiseValidity now
      BlockValidity.SCRIPTS).2.GetValidationCompletionTime = now ∧
    ((((CBlockIndex.fromHeader block).RaiseValidity now0
      BlockValidity.TRANSACTIONS).2.RaiseValidity now BlockValidity.SCRIPTS).2.RaiseValidity
      now2 BlockValidity.SCRIPTS) = (false, (((CBlockIndex.fromHeader block).RaiseValidity
      now0 BlockValidity.TRANSACTIONS).2.RaiseValidity now BlockValidity.SCRIPTS).2) ∧
    (CBlockIndex.fromHeader {} = ({} : CBlockIndex)) ∧
    ((e.RaiseValidity t v).2.GetValidationCompletionTime ≠
        e.GetValidationCompletionTime →
      (e.RaiseValidity t v).1 = true ∧ v = BlockValidity.SCRIPTS ∧
        e.GetValidationCompletionTime = SteadyClockTimePoint.max ∧
        (e.RaiseValidity t v).2.GetValidationCompletionTime = t) := by
  have a1 : (3 : Nat) &&& 96 = 0 := by decide
  have a2 : (3 : Nat) &&& 7 = 3 := by decide
  have a3 : (3 : Nat) &&& 4294967288 ||| 5 = 5 := by decide
  have a4 : (5 : Nat) &&& 96 = 0 := by decide
  have a5 : (5 : Nat) &&& 7 = 5 := by decide
  have h1 : (CBlockIndex.fromHeader block).RaiseValidity now0 BlockValidity.TRANSACTIONS =
      (true, { CBlockIndex.fromHeader block with nStatus := ⟨3⟩ }) := by
    simp [CBlockIndex.RaiseValidity, CBlockIndex.fromHeader, BlockStatus.isInvalid,
      BlockStatus.getValidity, BlockValidity.toNat, BlockStatus.withValidity,
      CBlockIndex.ValidityChangeRequiresValidationTimeSetting, BlockStatus.INVALID_MASK,
      BlockStatus.VALIDITY_MASK, BlockStatus.not32, BlockStatus.FAILED_FLAG,
      BlockStatus.FAILED_PARENT_FLAG, a1, a2, a3, a4, a5]
  have h2 : ({ CBlockIndex.fromHeader block with nStatus := ⟨3⟩ } :
        CBlockIndex).RaiseValidity now BlockValidity.SCRIPTS =
      (true, { CBlockIndex.fromHeader block with
        nStatus := ⟨5⟩, mValidationCompletionTime := now }) := by
    simp [CBlockIndex.RaiseValidity, CBlockIndex.fromHeader, BlockStatus.isInvalid,
      BlockStatus.getValidity, BlockValidity.toNat, BlockStatus.withValidity,
      CBlockIndex.ValidityChangeRequiresValidationTimeSetting, BlockStatus.INVALID_MASK,
      BlockStatus.VALIDITY_MASK, BlockStatus.not32, BlockStatus.FAILED_FLAG,
      BlockStatus.FAILED_PARENT_FLAG, a1, a2, a3, a4, a5]
  have h3 : ({ CBlockIndex.fromHeader block with
        nStatus := ⟨5⟩, mValidationCompletionTime := now } :
        CBlockIndex).RaiseValidity now2 BlockValidity.SCRIPTS =
      (false, { CBlockIndex.fromHeader block with
        nStatus := ⟨5⟩, mValidationCompletionTime := now }) := by
    simp [CBlockIndex.RaiseValidity, CBlockIndex.fromHeader, BlockStatus.isInvalid,
      BlockStatus.getValidity, BlockValidity.toNat, BlockStatus.INVALID_MASK,
      BlockStatus.VALIDITY_MASK, BlockStatus.FAILED_FLAG, BlockStatus.FAILED_PARENT_FLAG, a1, a2, a3, a4, a5]
  refine ⟨rfl, ?_, ?_, ?_, ?_, ?_, rfl, RaiseValidity_time_changes e t v⟩
  · rw [h1]
  · rw [h1]; rfl
  · rw [h1]; simp only; rw [h2]
  · rw [h1]; simp only; rw [h2]; rfl
  · rw [h1]; simp only; rw [h2]; simp only; rw [h3]

/-! ## Work comparator -/

theorem comparator_eq (h : Heap) (pa pb : Nat) (a b : CBlockIndex)
    (ha : h pa = some a) (hb : h pb = some b) :
    CBlockIndexWorkComparator h pa pb = some (decide
      (a.nChainWork < b.nChainWork ∨ (a.nChainWork = b.nChainWork ∧
        (a.mValidationCompletionTime > b.mValidationCompletionTime ∨
          (a.mValidationCompletionTime = b.mValidationCompletionTime ∧
            (a.nSequenceId > b.nSequenceId ∨
              (a.nSequenceId = b.nSequenceId ∧ pa > pb))))))) := by
  unfold CBlockIndexWorkComparator CBlockIndex.GetValidationCompletionTime
  rw [ha, hb]
  simp only [Option.some.injEq]
  split_ifs <;> simp only [Bool.false_eq, Bool.true_eq, decide_eq_false_iff_not,
    decide_eq_true_eq] <;> omega

theorem comparator_true_iff (h : Heap) (pa pb : Nat) :
    CBlockIndexWorkComparator h pa pb = some true ↔
      ∃ a b, h pa = some a ∧ h pb = some b ∧
        (a.nChainWork < b.nChainWork ∨ (a.nChainWork = b.nChainWork ∧
          (a.mValidationCompletionTime > b.mValidationCompletionTime ∨
            (a.mValidationCompletionTime = b.mValidationCompletionTime ∧
              (a.nSequenceId > b.nSequenceId ∨
                (a.nSequenceId = b.nSequenceId ∧ pa > pb)))))) := by
  constructor
  · intro hc
    cases ha : h pa with
    | none => simp [CBlockIndexWorkComparator, ha] at hc
    | some a =>
      cases hb : h pb with
      | none => simp [CBlockIndexWorkComparator, ha, hb] at hc
      | some b =>
        rw [comparator_eq h pa pb a b ha hb] at hc
        exact ⟨a, b, rfl, rfl, by simpa using hc⟩
  · rintro ⟨a, b, ha, hb, hc⟩
    rw [comparator_eq h pa pb a b ha hb]
    simpa using hc

/-- Claim C4: on the entries of a heap (one entry per address) the
comparator is a strict total order: irreflexive, asymmetric, transitive,
and for two distinct entries exactly one of `cmp(a,b)`, `cmp(b,a)` holds. -/
theorem C4_comparator_strict_total_order (h : Heap) (pa pb pc : Nat) :
    ((h pa).isSome = true → CBlockIndexWorkComparator h pa pa = some false) ∧
    (CBlockIndexWorkComparator h pa pb = some true →
      CBlockIndexWorkComparator h pb pa = some false) ∧
    (CBlockIndexWorkComparator h pa pb = some true →
      CBlockIndexWorkComparator h pb pc = some true →
      CBlockIndexWorkComparator h pa pc = some true) ∧
    ((h pa).isSome = true → (h pb).isSome = true → pa ≠ pb →
      ((CBlockIndexWorkComparator h pa pb = some true ∧
          CBlockIndexWorkComparator h pb pa = some false) ∨
        (CBlockIndexWorkComparator h pa pb = some false ∧
          CBlockIndexWorkComparator h pb pa = some true))) := by
  refine ⟨?_, ?_, ?_, ?_⟩
  · intro hv
    obtain ⟨a, ha⟩ := Option.isSome_iff_exists.mp hv
    rw [comparator_eq h pa pa a a ha ha]
    simp
  · intro hab
    obtain ⟨a, b, ha, hb, hc⟩ := (comparator_true_iff h pa pb).mp hab
    rw [comparator_eq h pb pa b a hb ha]
    simp only [Option.some.injEq, decide_eq_false_iff_not]
    omega
  · intro hab hbc
    obtain ⟨a, b, ha, hb, h1⟩ := (comparator_true_iff h pa pb).mp hab
    obtain ⟨b', c, hb', hc, h2⟩ := (comparator_true_iff h pb pc).mp hbc
    rw [hb] at hb'
    cases hb'
    rw [comparator_eq h pa pc a c ha hc]
    simp only [Option.some.injEq, decide_eq_true_eq]
    omega
  · intro hva hvb hne
    obtain ⟨a, ha⟩ := Option.isSome_iff_exists.mp hva
    obtain ⟨b, hb⟩ := Option.isSome_iff_exists.mp hvb
    rw [comparator_eq h pa pb a b ha hb, comparator_eq h pb pa b a hb ha]
    simp only [Option.some.injEq, decide_eq_false_iff_not, decide_eq_true_eq]
    omega

/-- Witness for C4 on the two tips of `tieBreakHeap`. -/
theorem C4_comparator_strict_total_order_witness :
    CBlockIndexWorkComparator tieBreakHeap 1 1 = some false ∧
    ((CBlockIndexWorkComparator tieBreakHeap 1 2 = some true ∧
        CBlockIndexWorkComparator tieBreakHeap 2 1 = some false) ∨
      (CBlockIndexWorkComparator tieBreakHeap 1 2 = some false ∧
        CBlockIndexWorkComparator tieBreakHeap 2 1 = some true)) :=
  ⟨(C4_comparator_strict_total_order tieBreakHeap 1 2 1).1 (by decide),
   (C4_comparator_strict_total_order tieBreakHeap 1 2 1).2.2.2
     (by decide) (by decide) (by decide)⟩

/-- Claim C5: the comparator is decided by the first key that differs:
chain work (less work is below), then validation-completion time (later is
below), then sequence id (larger is below), and only when all three are
equal the address (the larger address is below); an entry is not below
itself.  With equal work the entry validated earlier is the better one, and
with equal work and times sequence id 7 beats sequence id 9. -/
theorem C5_comparator_key_order (h : Heap) (pa pb : Nat) (a b : CBlockIndex)
    (ha : h pa = some a) (hb : h pb = some b) :
    (a.nChainWork < b.nChainWork → CBlockIndexWorkComparator h pa pb = some true) ∧
    (a.nChainWork > b.nChainWork → CBlockIndexWorkComparator h pa pb = some false) ∧
    (a.nChainWork = b.nChainWork →
      a.GetValidationCompletionTime > b.GetValidationCompletionTime →
      CBlockIndexWorkComparator h pa pb = some true) ∧
    (a.nChainWork = b.nChainWork →
      a.GetValidationCompletionTime < b.GetValidationCompletionTime →
      CBlockIndexWorkComparator h pa pb = some false) ∧
    (a.nChainWork = b.nChainWork →
      a.GetValidationCompletionTime = b.GetValidationCompletionTime →
      a.nSequenceId > b.nSequenceId →
      CBlockIndexWorkComparator h pa pb = some true) ∧
    (a.nChainWork = b.nChainWork →
      a.GetValidationCompletionTime = b.GetValidationCompletionTime →
      a.nSequenceId < b.nSequenceId →
      CBlockIndexWorkComparator h pa pb = some false) ∧
    (a.nChainWork = b.nChainWork →
      a.GetValidationCompletionTime = b.GetValidationCompletionTime →
      a.nSequenceId = b.nSequenceId →
      CBlockIndexWorkComparator h pa pb = some (decide (pa > pb))) ∧
    CBlockIndexWorkComparator h pa pa = some false ∧
    (a.nChainWork = b.nChainWork →
      a.GetValidationCompletionTime = b.GetValidationCompletionTime →
      a.nSequenceId = 9 → b.nSequenceId = 7 →
      CBlockIndexWorkComparator h pa pb = some true ∧
        CBlockIndexWorkComparator h pb pa = some false) := by
  have hab := comparator_eq h pa pb a b ha hb
  have hba := comparator_eq h pb pa b a hb ha
  have haa := comparator_eq h pa pa a a ha ha
  unfold CBlockIndex.GetValidationCompletionTime
  refine ⟨?_, ?_, ?_, ?_, ?_, ?_, ?_, ?_, ?_⟩
  · intro h1
    rw [hab]; simp only [Option.some.injEq, decide_eq_true_eq]; omega
  · intro h1
    rw [hab]; simp only [Option.some.injEq, decide_eq_false_iff_not]; omega
  · intro h1 h2
    rw [hab]; simp only [Option.some.injEq, decide_eq_true_eq]; omega
  · intro h1 h2
    rw [hab]; simp only [Option.some.injEq, decide_eq_false_iff_not]; omega
  · intro h1 h2 h3
    rw [hab]; simp only [Option.some.injEq, decide_eq_true_eq]; omega
  · intro h1 h2 h3
    rw [hab]; simp only [Option.some.injEq, decide_eq_false_iff_not]; omega
  · intro h1 h2 h3
    rw [hab]; simp only [Option.some.injEq, decide_eq_decide]; omega
  · rw [haa]; simp
  · intro h1 h2 h3 h4
    rw [hab, hba]
    simp only [Option.some.injEq, decide_eq_true_eq, decide_eq_false_iff_not]
    omega

/-- Witness for C5: in `tieBreakHeap` the tip `A` (address 1) was validated
before `B` (address 2), and the comparator puts `B` below `A`. -/
theorem C5_comparator_key_order_witness :
    CBlockIndexWorkComparator tieBreakHeap 2 1 = some true :=
  (C5_comparator_key_order tieBreakHeap 2 1
    { nChainWork := 10, mValidationCompletionTime := 8, nSequenceId := 9 }
    { nChainWork := 10, mValidationCompletionTime := 5, nSequenceId := 7 }
    rfl rfl).2.2.1 rfl (by decide)

theorem store_same (h : Heap) (p : Nat) (e : CBlockIndex) : h.store p e p = some e := by
  simp [Heap.store]

theorem store_other (h : Heap) (p q : Nat) (e : CBlockIndex) (hq : q ≠ p) :
    h.store p e q = h q := by
  simp [Heap.store, hq]

/-- Counterexample to C6 as stated: in `preciousHeap` the tips `A`
(address 1) and `B` (address 2) are distinct, have equal chain work and `A`
was validated after `B`; after `A.IgnoreValidationTime()` the comparator
still puts `A` below `B`, because `B` holds the minimum sentinel as well and
the sequence ids decide. -/
theorem C6_precious_block_counterexample :
    ((preciousHeap 1).map CBlockIndex.nChainWork =
      (preciousHeap 2).map CBlockIndex.nChainWork) ∧
    ((preciousHeap 1).map CBlockIndex.GetValidationCompletionTime = some 5) ∧
    ((preciousHeap 2).map CBlockIndex.GetValidationCompletionTime =
      some SteadyClockTimePoint.min) ∧
    SteadyClockTimePoint.min < 5 ∧
    ((preciousHeap.IgnoreValidationTime 1).bind
      (fun h => CBlockIndexWorkComparator h 2 1)) = some false ∧
    ((preciousHeap.IgnoreValidationTime 1).bind
      (fun h => CBlockIndexWorkComparator h 1 2)) = some true := by
  decide

/-- Claim C6, amended: for two distinct entries `A`, `B` with equal chain
work where `A` was validated after `B` and the validation-completion time of
`B` is above the minimum sentinel, after `A.IgnoreValidationTime()` the
comparator ranks `A` above `B`: `cmp(B, A)` is true and `cmp(A, B)` is
false. -/
theorem C6_precious_block (h : Heap) (pa pb : Nat) (a b : CBlockIndex)
    (ha : h pa = some a) (hb : h pb = some b) (hne : pa ≠ pb)
    (hwork : a.nChainWork = b.nChainWork)
    (_hlater : a.GetValidationCompletionTime > b.GetValidationCompletionTime)
    (hmin : SteadyClockTimePoint.min < b.GetValidationCompletionTime) :
    ∃ h1, h.IgnoreValidationTime pa = some h1 ∧
      CBlockIndexWorkComparator h1 pb pa = some true ∧
      CBlockIndexWorkComparator h1 pa pb = some false := by
  refine ⟨h.store pa a.IgnoreValidationTime, ?_, ?_, ?_⟩
  · unfold Heap.IgnoreValidationTime
    rw [ha]
  · rw [comparator_eq _ pb pa b a.IgnoreValidationTime
      (by rw [store_other _ _ _ _ (Ne.symm hne)]; exact hb) (store_same _ _ _)]
    unfold CBlockIndex.GetValidationCompletionTime at hmin
    simp only [CBlockIndex.IgnoreValidationTime, Option.some.injEq, decide_eq_true_eq]
    omega
  · rw [comparator_eq _ pa pb a.IgnoreValidationTime b (store_same _ _ _)
      (by rw [store_other _ _ _ _ (Ne.symm hne)]; exact hb)]
    unfold CBlockIndex.GetValidationCompletionTime at hmin
    simp only [CBlockIndex.IgnoreValidationTime, Option.some.injEq,
      decide_eq_false_iff_not]
    omega

/-- Witness for C6: in `tieBreakHeap` with the roles exchanged (`B` at
address 2 validated at 8, after `A` at address 1 validated at 5), ignoring
the validation time of address 2 ranks it above address 1. -/
theorem C6_precious_block_witness :
    ∃ h1, tieBreakHeap.IgnoreValidationTime 2 = some h1 ∧
      CBlockIndexWorkComparator h1 1 2 = some true ∧
      CBlockIndexWorkComparator h1 2 1 = some false :=
  C6_precious_block tieBreakHeap 2 1
    { nChainWork := 10, mValidationCompletionTime := 8, nSequenceId := 9 }
    { nChainWork := 10, mValidationCompletionTime := 5, nSequenceId := 7 }
    rfl rfl (by decide) rfl (by decide) (by decide)

/-! ## Median time past -/

theorem pathTimes_cons (h : Heap) (q : Nat) (rest : List Nat) (e : CBlockIndex)
    (hq : h q = some e) :
    pathTimes h (q :: rest) = e.GetBlockTime :: pathTimes h rest := by
  simp [pathTimes, List.filterMap_cons, hq]

theorem collectBlockTimes_of_path (h : Heap) (path : List Nat) :
    ∀ (pindex : Option Nat) (n : Nat), isPathToRoot h pindex path = true →
      collectBlockTimes h n pindex = some (pathTimes h (path.take n)) ∧
      (pathTimes h (path.take n)).length = min n path.length := by
  induction path with
  | nil =>
    intro pindex n hp
    cases pindex with
    | none => cases n <;> simp [collectBlockTimes, pathTimes]
    | some p => simp [isPathToRoot] at hp
  | cons q rest ih =>
    intro pindex n hp
    cases pindex with
    | none => simp [isPathToRoot] at hp
    | some p =>
      simp only [isPathToRoot, Bool.and_eq_true, decide_eq_true_eq] at hp
      obtain ⟨hpq, hrest⟩ := hp
      subst hpq
      cases hq : h p with
      | none => rw [hq] at hrest; simp at hrest
      | some e =>
        rw [hq] at hrest
        cases n with
        | zero => simp [collectBlockTimes, pathTimes]
        | succ n =>
          obtain ⟨h1, h2⟩ := ih e.pprev n hrest
          rw [List.take_succ_cons, pathTimes_cons h p _ e hq]
          constructor
          · simp only [collectBlockTimes, hq, h1]
          · simp only [List.length_cons, h2]
            omega

theorem sorted_rank (l : List Int) (hs : l.Sorted (· ≤ ·)) :
    ∀ (i : Nat) (r : Int), l[i]? = some r →
      l.countP (fun x => decide (x < r)) ≤ i ∧
      i + 1 ≤ l.countP (fun x => decide (x ≤ r)) := by
  induction l with
  | nil => intro i r hr; simp at hr
  | cons x xs ih =>
    intro i r hr
    have hx : ∀ y ∈ xs, x ≤ y := (List.sorted_cons.mp hs).1
    have hxs : xs.Sorted (· ≤ ·) := (List.sorted_cons.mp hs).2
    cases i with
    | zero =>
      simp only [List.getElem?_cons_zero, Option.some.injEq] at hr
      subst hr
      constructor
      · rw [List.countP_cons]
        have h0 : xs.countP (fun y => decide (y < x)) = 0 := by
          rw [List.countP_eq_zero]
          intro y hy
          have := hx y hy
          simp only [decide_eq_true_eq, not_lt]
          exact this
        simp [h0]
      · rw [List.countP_cons]
        simp
    | succ j =>
      simp only [List.getElem?_cons_succ] at hr
      obtain ⟨h1, h2⟩ := ih hxs j r hr
      have hmem : r ∈ xs := List.getElem?_mem hr
      have hxr : x ≤ r := hx r hmem
      constructor
      · rw [List.countP_cons]
        split_ifs <;> omega
      · rw [List.countP_cons]
        simp only [hxr, decide_True, if_true]
        omega

theorem isKthSmallest_unique (T : List Int) (i : Nat) (r r' : Int)
    (h1 : IsKthSmallest T i r) (h2 : IsKthSmallest T i r') : r = r' := by
  have key : ∀ a b : Int, IsKthSmallest T i a → IsKthSmallest T i b → ¬ a < b := by
    intro a b ha hb hlt
    have hmono : T.countP (fun x => decide (x ≤ a)) ≤ T.countP (fun x => decide (x < b)) := by
      apply List.countP_mono_left
      intro x _ hx
      simp only [decide_eq_true_eq] at hx ⊢
      omega
    have := ha.2.2
    have := hb.2.1
    omega
  have := key r r' h1 h2
  have := key r' r h2 h1
  omega

theorem isKthSmallest_perm (T T' : List Int) (i : Nat) (r : Int) (hp : List.Perm T T')
    (h : IsKthSmallest T i r) : IsKthSmallest T' i r := by
  unfold IsKthSmallest at h ⊢
  rw [← hp.countP_eq, ← hp.countP_eq]
  exact ⟨hp.mem_iff.mp h.1, h.2⟩

theorem GetMedianTimePast_of_times (h : Heap) (p : Nat) (T : List Int)
    (hT : collectBlockTimes h nMedianTimeSpan (some p) = some T) (hne : T ≠ []) :
    ∃ r, GetMedianTimePast h p = some r ∧ IsKthSmallest T (T.length / 2 + 1) r := by
  have hlen : 0 < T.length := List.length_pos.mpr hne
  have hperm : List.Perm (T.insertionSort (· ≤ ·)) T := List.perm_insertionSort _ T
  have hsort : (T.insertionSort (· ≤ ·)).Sorted (· ≤ ·) := List.sorted_insertionSort _ T
  have hidx : T.length / 2 < (T.insertionSort (· ≤ ·)).length := by
    rw [hperm.length_eq]
    omega
  refine ⟨(T.insertionSort (· ≤ ·))[T.length / 2], ?_, ?_⟩
  · unfold GetMedianTimePast nth_element
    rw [hT]
    exact List.getElem?_eq_getElem hidx
  · have hr := sorted_rank _ hsort (T.length / 2) _ (List.getElem?_eq_getElem hidx)
    apply isKthSmallest_perm _ _ _ _ hperm
    refine ⟨List.getElem_mem _, ?_, ?_⟩
    · omega
    · omega

/-- Claim C7: let `path` be the `pprev` path from the entry at `p` to the
root, `k = min(11, length of path)` and `T` the block times of the first `k`
entries of the path.  When `k` is odd, `GetMedianTimePast()` returns the
median of `T`, that is its `((k+1)/2)`-th smallest element; the result is the
same for every other entry whose collected times are a rearrangement of `T`.
For the chain with times 100, 200, ..., 1100 the result at height 10 is
600. -/
theorem C7_median_time_past (h : Heap) (p : Nat) (path : List Nat)
    (hpath : isPathToRoot h (some p) path = true)
    (hodd : (min 11 path.length) % 2 = 1) :
    (pathTimes h (path.take 11)).length = min 11 path.length ∧
    (∃ r, GetMedianTimePast h p = some r ∧
      IsKthSmallest (pathTimes h (path.take 11)) ((min 11 path.length + 1) / 2) r ∧
      ∀ (h' : Heap) (p' : Nat) (path' : List Nat),
        isPathToRoot h' (some p') path' = true →
        List.Perm (pathTimes h' (path'.take 11)) (pathTimes h (path.take 11)) →
        GetMedianTimePast h' p' = some r) ∧
    GetMedianTimePast (timeChainHeap 11) 11 = some 600 := by
  obtain ⟨hc, hl⟩ := collectBlockTimes_of_path h path (some p) 11 hpath
  have hne : pathTimes h (path.take 11) ≠ [] := by
    intro h0
    rw [h0] at hl
    simp only [List.length_nil] at hl
    omega
  obtain ⟨r, hr, hk⟩ := GetMedianTimePast_of_times h p _ hc hne
  have hidx : (pathTimes h (path.take 11)).length / 2 + 1 = (min 11 path.length + 1) / 2 := by
    rw [hl]
    omega
  rw [hidx] at hk
  refine ⟨hl, ⟨r, hr, hk, ?_⟩, by decide⟩
  intro h' p' path' hpath' hperm
  obtain ⟨hc', _⟩ := collectBlockTimes_of_path h' path' (some p') 11 hpath'
  have hne' : pathTimes h' (path'.take 11) ≠ [] := by
    intro h0
    rw [h0] at hperm
    exact hne (List.nil_perm.mp hperm)
  obtain ⟨r', hr', hk'⟩ := GetMedianTimePast_of_times h' p' _ hc' hne'
  have hk2 := isKthSmallest_perm _ _ _ _ hperm hk'
  rw [hperm.length_eq, hidx] at hk2
  rw [hr', isKthSmallest_unique _ _ _ _ hk2 hk]

/-- Witness for C7: the chain with times 100, ..., 1100 at its tip. -/
theorem C7_median_time_past_witness :
    GetMedianTimePast (timeChainHeap 11) 11 = some 600 ∧
    IsKthSmallest (pathTimes (timeChainHeap 11) [11, 10, 9, 8, 7, 6, 5, 4, 3, 2, 1]) 6 600 :=
  ⟨(C7_median_time_past (timeChainHeap 11) 11 [11, 10, 9, 8, 7, 6, 5, 4, 3, 2, 1]
      (by decide) (by decide)).2.2,
   by decide⟩

/-- Counterexample to C8 as stated: for the chain of two entries with times
100 (genesis) and 200, two times are collected, `GetMedianTimePast()` at the
tip returns 200, and 200 is not the first smallest (lower median) of the two
times; 100 is. -/
theorem C8_lower_median_counterexample :
    isPathToRoot (timeChainHeap 2) (some 2) [2, 1] = true ∧
    collectBlockTimes (timeChainHeap 2) nMedianTimeSpan (some 2) = some [200, 100] ∧
    GetMedianTimePast (timeChainHeap 2) 2 = some 200 ∧
    ¬ IsKthSmallest [200, 100] (2 / 2) 200 ∧
    IsKthSmallest [200, 100] (2 / 2) 100 := by
  decide

/-- Claim C8, amended: when the number `k` of block times collected by
`GetMedianTimePast` (the entry and its ancestors, at most 11) is even,
`GetMedianTimePast()` returns the upper median of those times, that is the
`(k/2 + 1)`-th smallest of them (counted from 1). -/
theorem C8_upper_median (h : Heap) (p : Nat) (path : List Nat)
    (hpath : isPathToRoot h (some p) path = true)
    (heven : (min 11 path.length) % 2 = 0) :
    collectBlockTimes h nMedianTimeSpan (some p) = some (pathTimes h (path.take 11)) ∧
    (pathTimes h (path.take 11)).length = min 11 path.length ∧
    ∃ r, GetMedianTimePast h p = some r ∧
      IsKthSmallest (pathTimes h (path.take 11)) (min 11 path.length / 2 + 1) r := by
  obtain ⟨hc, hl⟩ := collectBlockTimes_of_path h path (some p) 11 hpath
  have hpos : 0 < path.length := by
    cases path with
    | nil => simp [isPathToRoot] at hpath
    | cons q rest => simp
  have hne : pathTimes h (path.take 11) ≠ [] := by
    intro h0
    rw [h0] at hl
    simp only [List.length_nil] at hl
    omega
  obtain ⟨r, hr, hk⟩ := GetMedianTimePast_of_times h p _ hc hne
  rw [hl] at hk
  exact ⟨hc, hl, r, hr, hk⟩

/-- Witness for C8: the chain of two entries with times 100 and 200. -/
theorem C8_upper_median_witness :
    ∃ r, GetMedianTimePast (timeChainHeap 2) 2 = some r ∧
      IsKthSmallest (pathTimes (timeChainHeap 2) (List.take 11 [2, 1]))
        (min 11 [2, 1].length / 2 + 1) r :=
  (C8_upper_median (timeChainHeap 2) 2 [2, 1] (by decide) (by decide)).2.2

/-! ## Soft rejection -/

theorem hasDataForSoftRejection_with (s : BlockStatus) (b : Bool) :
    (s.withDataForSoftRejection b).hasDataForSoftRejection = b := by
  unfold BlockStatus.withDataForSoftRejection BlockStatus.hasDataForSoftRejection
  simp only
  rw [Nat.and_distrib_right, Nat.and_assoc]
  have h0 : BlockStatus.not32 BlockStatus.HAS_SOFT_REJ_FLAG &&& BlockStatus.HAS_SOFT_REJ_FLAG
      = 0 := by decide
  rw [h0]
  cases b
  · simp
  · simp only [Nat.and_zero, Nat.zero_or, if_true, Nat.and_self]
    decide

theorem SetSoftRejectedFromParent_eq (h : Heap) (d p : Nat) (ed ep : CBlockIndex)
    (hd : h d = some ed) (hp : ed.pprev = some p) (hep : h p = some ep) :
    ∃ ed', SetSoftRejectedFromParent h d = some (h.store d ed') ∧
      ed'.nSoftRejected = softRejectedFromParentValue ep.nSoftRejected ∧
      ed'.nStatus.hasDataForSoftRejection = decide (ed'.nSoftRejected ≥ 0) ∧
      ed'.pprev = ed.pprev := by
  unfold SetSoftRejectedFromParent CBlockIndex.ShouldBeConsideredSoftRejectedBecauseOfParentNL
    softRejectedFromParentValue
  rw [hd]
  simp only [hp, hep, Option.some_bind]
  by_cases hpos : ep.nSoftRejected > 0
  · simp only [hpos, decide_True, if_true]
    refine ⟨_, rfl, rfl, ?_, rfl⟩
    simp only [hasDataForSoftRejection_with]
    symm
    simp only [decide_eq_true_eq]
    omega
  · simp only [hpos, decide_False, if_false]
    refine ⟨_, rfl, rfl, ?_, rfl⟩
    simp [hasDataForSoftRejection_with]

theorem isDescendantChain_congr (h h' : Heap) (ds : List Nat) :
    ∀ p : Nat, (∀ q ∈ ds, h' q = h q) →
      isDescendantChain h' p ds = isDescendantChain h p ds := by
  induction ds with
  | nil => intro p _; rfl
  | cons d ds ih =>
    intro p hq
    simp only [isDescendantChain]
    rw [hq d (List.mem_cons_self _ _),
      ih d (fun q hm => hq q (List.mem_cons_of_mem _ hm))]

theorem isDescendantChain_take (h : Heap) (ds : List Nat) :
    ∀ (p m : Nat), isDescendantChain h p ds = true →
      isDescendantChain h p (ds.take m) = true := by
  induction ds with
  | nil => intro p m _; simp [isDescendantChain]
  | cons d ds ih =>
    intro p m hc
    cases m with
    | zero => simp [isDescendantChain]
    | succ m =>
      simp only [isDescendantChain, Bool.and_eq_true] at hc
      simp only [List.take_succ_cons, isDescendantChain, Bool.and_eq_true]
      exact ⟨hc.1, ih d m hc.2⟩

theorem isDescendantChain_pprev (h : Heap) (ds : List Nat) :
    ∀ (p : Nat), isDescendantChain h p ds = true →
      ∀ (k q : Nat), ds[k]? = some q →
        ∃ e, h q = some e ∧ e.pprev = (p :: ds)[k]? := by
  induction ds with
  | nil => intro p _ k q hk; simp at hk
  | cons d ds ih =>
    intro p hc k q hk
    simp only [isDescendantChain, Bool.and_eq_true] at hc
    cases k with
    | zero =>
      simp only [List.getElem?_cons_zero, Option.some.injEq] at hk
      subst hk
      cases hd : h d with
      | none => rw [hd] at hc; simp at hc
      | some e =>
        rw [hd] at hc
        exact ⟨e, rfl, by simpa using hc.1⟩
    | succ k =>
      simp only [List.getElem?_cons_succ] at hk
      obtain ⟨e, he, hpp⟩ := ih d hc.2 k q hk
      exact ⟨e, he, by simpa using hpp⟩

theorem SetSoftRejectedFromParentEach_spec (ds : List Nat) :
    ∀ (h : Heap) (p : Nat) (ep : CBlockIndex), h p = some ep →
      isDescendantChain h p ds = true → (p :: ds).Nodup →
      ∃ h2, SetSoftRejectedFromParentEach h ds = some h2 ∧
        (∀ q, q ∉ ds → h2 q = h q) ∧
        ∀ (k q : Nat), ds[k]? = some q →
          ∃ ek, h2 q = some ek ∧
            ek.nSoftRejected = softRejectedFromParentValue^[k + 1] ep.nSoftRejected ∧
            ek.nStatus.hasDataForSoftRejection = decide (ek.nSoftRejected ≥ 0) ∧
            ek.pprev = (p :: ds)[k]? := by
  induction ds with
  | nil =>
    intro h p ep _ _ _
    exact ⟨h, rfl, fun _ _ => rfl, fun k q hk => by simp at hk⟩
  | cons d ds ih =>
    intro h p ep hp hc hnd
    simp only [isDescendantChain, Bool.and_eq_true] at hc
    obtain ⟨hd, hrest⟩ := hc
    have hnd' : (d :: ds).Nodup := (List.nodup_cons.mp hnd).2
    have hdn : d ∉ ds := (List.nodup_cons.mp hnd').1
    cases hhd : h d with
    | none => rw [hhd] at hd; simp at hd
    | some ed =>
      rw [hhd] at hd
      have hpp : ed.pprev = some p := by simpa using hd
      obtain ⟨ed', hset, hcnt, hflag, hprev⟩ :=
        SetSoftRejectedFromParent_eq h d p ed ep hhd hpp hp
      have hagree : ∀ q ∈ ds, h.store d ed' q = h q := by
        intro q hq
        apply store_other
        intro hqd
        exact hdn (hqd ▸ hq)
      have hc' : isDescendantChain (h.store d ed') d ds = true := by
        rw [isDescendantChain_congr h _ ds d hagree]
        exact hrest
      obtain ⟨h2, hE, hout, hin⟩ :=
        ih (h.store d ed') d ed' (store_same _ _ _) hc' hnd'
      refine ⟨h2, ?_, ?_, ?_⟩
      · simp only [SetSoftRejectedFromParentEach, hset, hE]
      · intro q hq
        have hqd : q ≠ d := fun hqd => hq (hqd ▸ List.mem_cons_self _ _)
        have hqds : q ∉ ds := fun hm => hq (List.mem_cons_of_mem _ hm)
        rw [hout q hqds, store_other _ _ _ _ hqd]
      · intro k q hk
        cases k with
        | zero =>
          simp only [List.getElem?_cons_zero, Option.some.injEq] at hk
          subst hk
          refine ⟨ed', ?_, ?_, hflag, ?_⟩
          · rw [hout _ hdn, store_same]
          · simpa using hcnt
          · rw [hprev, hpp]; simp
        | succ k =>
          simp only [List.getElem?_cons_succ] at hk
          obtain ⟨ek, hek, hcnt', hflag', hprev'⟩ := hin k q hk
          refine ⟨ek, hek, ?_, hflag', ?_⟩
          · rw [hcnt', hcnt, ← Function.iterate_succ_apply]
          · rw [hprev']; simp

theorem softRejectedFromParentValue_iterate (c : Int) (k : Nat) :
    softRejectedFromParentValue^[k + 1] c =
      if (k : Int) + 1 ≤ c then c - ((k : Int) + 1) else -1 := by
  induction k with
  | zero =>
    simp only [Function.iterate_succ, Function.iterate_zero, Function.comp_apply, id_eq,
      softRejectedFromParentValue]
    split_ifs <;> omega
  | succ k ih =>
    rw [Function.iterate_succ_apply', ih]
    unfold softRejectedFromParentValue
    push_cast
    split_ifs <;> omega

theorem SetSoftRejectedFor_eq (h : Heap) (pe : Nat) (n : Int)
    (hset : (SetSoftRejectedFor h pe n).isSome = true) :
    ∃ e0 e1, h pe = some e0 ∧ -1 ≤ n ∧
      SetSoftRejectedFor h pe n = some (h.store pe e1) ∧
      e1.nSoftRejected = n ∧ e1.nStatus.hasDataForSoftRejection = decide (n ≥ 0) ∧
      e1.pprev = e0.pprev := by
  unfold SetSoftRejectedFor at hset ⊢
  cases he : h pe with
  | none => rw [he] at hset; simp at hset
  | some e0 =>
    rw [he] at hset
    simp only at hset ⊢
    by_cases hn : n ≥ -1
    · simp only [hn, not_true_eq_false, if_false] at hset ⊢
      cases hs : e0.ShouldBeConsideredSoftRejectedBecauseOfParentNL h with
      | none => rw [hs] at hset; simp at hset
      | some b =>
        cases b with
        | true => rw [hs] at hset; simp at hset
        | false =>
          refine ⟨e0, _, rfl, trivial, rfl, rfl, ?_, rfl⟩
          simp only [hasDataForSoftRejection_with, CBlockIndex.IsSoftRejectedNL]
    · simp only [hn, not_false_eq_true, if_true] at hset
      simp at hset

theorem soft_rejection_after (h : Heap) (pe : Nat) (ds : List Nat) (n : Int) (m : Nat)
    (hchain : isDescendantChain h pe ds = true) (hnodup : (pe :: ds).Nodup)
    (hset : (SetSoftRejectedFor h pe n).isSome = true) :
    ∃ h1 h2, SetSoftRejectedFor h pe n = some h1 ∧
      SetSoftRejectedFromParentEach h1 (ds.take m) = some h2 ∧ -1 ≤ n ∧
      (∃ e, h2 pe = some e ∧ e.nSoftRejected = n ∧
        e.nStatus.hasDataForSoftRejection = decide (n ≥ 0)) ∧
      ∀ (k q : Nat), ds[k]? = some q →
        (k < m → ∃ d, h2 q = some d ∧
          d.nSoftRejected = (if (k : Int) + 1 ≤ n then n - ((k : Int) + 1) else -1) ∧
          d.nStatus.hasDataForSoftRejection = decide (d.nSoftRejected ≥ 0) ∧
          d.pprev = (pe :: ds)[k]?) ∧
        (m ≤ k → h2 q = h q) := by
  obtain ⟨e0, e1, _, hn, hS, hc1, hf1, _⟩ := SetSoftRejectedFor_eq h pe n hset
  have hpe : pe ∉ ds := (List.nodup_cons.mp hnodup).1
  have hds : ds.Nodup := (List.nodup_cons.mp hnodup).2
  have hagree : ∀ q ∈ ds, h.store pe e1 q = h q := by
    intro q hq
    apply store_other
    intro hqp
    exact hpe (hqp ▸ hq)
  have hchain1 : isDescendantChain (h.store pe e1) pe (ds.take m) = true := by
    rw [isDescendantChain_congr h _ (ds.take m) pe
      (fun q hq => hagree q (List.mem_of_mem_take hq))]
    exact isDescendantChain_take h ds pe m hchain
  have hnodup1 : (pe :: ds.take m).Nodup :=
    List.Nodup.sublist ((List.take_sublist m ds).cons₂ pe) hnodup
  obtain ⟨h2, hE, hout, hin⟩ :=
    SetSoftRejectedFromParentEach_spec (ds.take m) (h.store pe e1) pe e1
      (store_same _ _ _) hchain1 hnodup1
  refine ⟨h.store pe e1, h2, hS, hE, hn, ⟨e1, ?_, hc1, hf1⟩, ?_⟩
  · rw [hout pe (fun hm => hpe (List.mem_of_mem_take hm)), store_same]
  · intro k q hk
    constructor
    · intro hkm
      obtain ⟨d, hd, hcnt, hflag, hprev⟩ :=
        hin k q (by rw [List.getElem?_take_of_lt hkm]; exact hk)
      refine ⟨d, hd, ?_, hflag, ?_⟩
      · rw [hcnt, hc1, softRejectedFromParentValue_iterate]
      · rw [hprev, ← List.take_succ_cons, List.getElem?_take_of_lt (Nat.lt_succ_of_lt hkm)]
    · intro hmk
      have hq : q ∈ ds := List.getElem?_mem hk
      have hqdrop : q ∈ ds.drop m := by
        apply List.getElem?_mem (n := k - m)
        rw [List.getElem?_drop, Nat.add_sub_cancel' hmk]
        exact hk
      have hqtake : q ∉ ds.take m := fun hm =>
        (List.disjoint_take_drop hds (Nat.le_refl m)) hm hqdrop
      rw [hout q hqtake]
      exact hagree q hq

/-- Counterexample to C9 as stated: `softRejectedHeap` is the state reached
from the fresh chain g, a, b, c, d by `SetSoftRejectedFor(2)` on a and the
propagation to b and c.  There `SetSoftRejectedFor(0)` on a is allowed, and
after it and the propagation up to 0 levels the descendant b at depth 1 > 0
still has counter 1 with HAS_SOFT_REJ set, not -1 with the flag cleared. -/
theorem C9_soft_rejection_propagation_counterexample :
    (((SetSoftRejectedFor softRejectionHeap 2 2).bind
        (fun h => SetSoftRejectedFromParentEach h [3, 4])).map
        (fun h => [1, 2, 3, 4, 5].map h)
      = some ([1, 2, 3, 4, 5].map softRejectedHeap)) ∧
    isDescendantChain softRejectedHeap 2 [3, 4, 5] = true ∧
    (SetSoftRejectedFor softRejectedHeap 2 0).isSome = true ∧
    (((SetSoftRejectedFor softRejectedHeap 2 0).bind
        (fun h1 => SetSoftRejectedFromParentEach h1 ([3, 4, 5].take (0 : Int).toNat))).map
        (fun h2 => (h2 3).map
          (fun d => (d.GetSoftRejectedFor, d.nStatus.hasDataForSoftRejection)))
      = some (some (1, true))) := by
  decide

/-- Claim C9, amended: let `ds` be a chain of descendants of the entry at
`pe` (pairwise distinct addresses) and let `SetSoftRejectedFor(n)` be allowed
on that entry (so `n ≥ -1`).  After it and `SetSoftRejectedFromParent()` on
the first `n` descendants in parent-before-child order, the entry itself has
counter `n` with HAS_SOFT_REJ set iff `n ≥ 0`, every descendant at depth
`k ≤ n` has counter `n - k` with HAS_SOFT_REJ set, and every descendant at
depth `> n` is as it was before the calls; so it has counter -1 with
HAS_SOFT_REJ cleared when it had before.  On the fresh chain g, a, b, c, d
with `SetSoftRejectedFor(2)` on a the counters are a=2, b=1, c=0, d=-1 and
only a, b, c have HAS_SOFT_REJ. -/
theorem C9_soft_rejection_propagation (h : Heap) (pe : Nat) (ds : List Nat) (n : Int)
    (hchain : isDescendantChain h pe ds = true) (hnodup : (pe :: ds).Nodup)
    (hset : (SetSoftRejectedFor h pe n).isSome = true) :
    (∃ h1 h2, SetSoftRejectedFor h pe n = some h1 ∧
      SetSoftRejectedFromParentEach h1 (ds.take n.toNat) = some h2 ∧ -1 ≤ n ∧
      (∃ e, h2 pe = some e ∧ e.GetSoftRejectedFor = n ∧
        e.nStatus.hasDataForSoftRejection = decide (n ≥ 0)) ∧
      ∀ (k q : Nat), ds[k]? = some q →
        ((k : Int) + 1 ≤ n → ∃ d, h2 q = some d ∧
          d.GetSoftRejectedFor = n - ((k : Int) + 1) ∧
          d.nStatus.hasDataForSoftRejection = true) ∧
        (n < (k : Int) + 1 → h2 q = h q ∧
          ∀ d0, h q = some d0 → d0.GetSoftRejectedFor = -1 →
            d0.nStatus.hasDataForSoftRejection = false →
            ∃ d, h2 q = some d ∧ d.GetSoftRejectedFor = -1 ∧
              d.nStatus.hasDataForSoftRejection = false)) ∧
    (((SetSoftRejectedFor softRejectionHeap 2 2).bind
        (fun h1 => SetSoftRejectedFromParentEach h1 ([3, 4, 5].take (2 : Int).toNat))).map
        (fun h2 => [1, 2, 3, 4, 5].map (fun q => (h2 q).map
          (fun d => (d.GetSoftRejectedFor, d.nStatus.hasDataForSoftRejection))))
      = some [some (-1, false), some (2, true), some (1, true), some (0, true),
          some (-1, false)]) := by
  refine ⟨?_, by decide⟩
  obtain ⟨h1, h2, hS, hE, hn, he, hk⟩ :=
    soft_rejection_after h pe ds n n.toNat hchain hnodup hset
  refine ⟨h1, h2, hS, hE, hn, he, ?_⟩
  intro k q hq
  constructor
  · intro hkn
    obtain ⟨d, hd, hcnt, hflag, _⟩ := (hk k q hq).1 (by omega)
    rw [if_pos hkn] at hcnt
    refine ⟨d, hd, hcnt, ?_⟩
    rw [hflag, hcnt]
    simp only [decide_eq_true_eq]
    omega
  · intro hkn
    have hun : h2 q = h q := (hk k q hq).2 (by omega)
    refine ⟨hun, ?_⟩
    intro d0 hd0 hc0 hf0
    exact ⟨d0, by rw [hun, hd0], hc0, hf0⟩

/-- Witness for C9 on the fresh chain g, a, b, c, d with
`SetSoftRejectedFor(2)` on a: c at depth 2 gets counter 0 with HAS_SOFT_REJ
set and d at depth 3 is untouched. -/
theorem C9_soft_rejection_propagation_witness :
    ∃ h1 h2, SetSoftRejectedFor softRejectionHeap 2 2 = some h1 ∧
      SetSoftRejectedFromParentEach h1 ([3, 4, 5].take (2 : Int).toNat) = some h2 ∧
      (∃ d, h2 4 = some d ∧ d.GetSoftRejectedFor = 2 - ((1 : Nat) + 1 : Int) ∧
        d.nStatus.hasDataForSoftRejection = true) ∧
      h2 5 = softRejectionHeap 5 := by
  obtain ⟨h1, h2, hS, hE, _, _, hk⟩ :=
    (C9_soft_rejection_propagation softRejectionHeap 2 [3, 4, 5] 2
      (by decide) (by decide) (by decide)).1
  exact ⟨h1, h2, hS, hE, (hk 1 4 (by decide)).1 (by decide),
    ((hk 2 5 (by decide)).2 (by decide)).1⟩

theorem repropagation_entries (h h2 : Heap) (pe : Nat) (ds : List Nat) (n old : Int)
    (hchain : isDescendantChain h pe ds = true)
    (hdesc : ∀ (k q : Nat), ds[k]? = some q → ∃ d, h q = some d ∧
      d.GetSoftRejectedFor = (if (k : Int) + 1 ≤ old then old - ((k : Int) + 1) else -1) ∧
      d.nStatus.hasDataForSoftRejection = decide (d.GetSoftRejectedFor ≥ 0))
    (hk : ∀ (k q : Nat), ds[k]? = some q →
      (k < (max old n).toNat → ∃ d, h2 q = some d ∧
        d.nSoftRejected = (if (k : Int) + 1 ≤ n then n - ((k : Int) + 1) else -1) ∧
        d.nStatus.hasDataForSoftRejection = decide (d.nSoftRejected ≥ 0) ∧
        d.pprev = (pe :: ds)[k]?) ∧
      ((max old n).toNat ≤ k → h2 q = h q)) :
    ∀ (k q : Nat), ds[k]? = some q → ∃ d, h2 q = some d ∧
      d.GetSoftRejectedFor = (if (k : Int) + 1 ≤ n then n - ((k : Int) + 1) else -1) ∧
      d.nStatus.hasDataForSoftRejection = decide (d.GetSoftRejectedFor ≥ 0) ∧
      d.pprev = (pe :: ds)[k]? := by
  intro k q hq
  by_cases hkm : k < (max old n).toNat
  · exact (hk k q hq).1 hkm
  · have hun : h2 q = h q := (hk k q hq).2 (by omega)
    obtain ⟨d, hd, hcnt, hflag⟩ := hdesc k q hq
    obtain ⟨d', hd', hprev⟩ := isDescendantChain_pprev h ds pe hchain k q hq
    rw [hd] at hd'
    cases hd'
    refine ⟨d, by rw [hun, hd], ?_, hflag, hprev⟩
    rw [hcnt]
    have h1 : ¬ ((k : Int) + 1 ≤ old) := by omega
    have h2 : ¬ ((k : Int) + 1 ≤ n) := by omega
    rw [if_neg h1, if_neg h2]

/-- Claim C10: let the entry at `pe` have counter `old` and let every
descendant at depth `k` on the chain `ds` hold the value derived from it
(`old - k` if `k ≤ old`, else -1, with HAS_SOFT_REJ set iff the value is
`≥ 0`).  After an allowed `SetSoftRejectedFor(n)` on the entry and
`SetSoftRejectedFromParent()` on the descendants at depths `1..max(old, n)`
in parent-before-child order, every descendant at every depth `k` holds
`n - k` if `k ≤ n` and -1 otherwise, with HAS_SOFT_REJ set iff its counter
is `≥ 0`, and its counter is its parent's counter minus one when the
parent's counter is `> 0` and -1 otherwise. -/
theorem C10_soft_rejection_repropagation (h : Heap) (pe : Nat) (ds : List Nat)
    (n old : Int) (e0 : CBlockIndex)
    (_he0 : h pe = some e0) (_hold : e0.GetSoftRejectedFor = old)
    (hchain : isDescendantChain h pe ds = true) (hnodup : (pe :: ds).Nodup)
    (hdesc : ∀ (k q : Nat), ds[k]? = some q → ∃ d, h q = some d ∧
      d.GetSoftRejectedFor = (if (k : Int) + 1 ≤ old then old - ((k : Int) + 1) else -1) ∧
      d.nStatus.hasDataForSoftRejection = decide (d.GetSoftRejectedFor ≥ 0))
    (hset : (SetSoftRejectedFor h pe n).isSome = true) :
    ∃ h1 h2, SetSoftRejectedFor h pe n = some h1 ∧
      SetSoftRejectedFromParentEach h1 (ds.take (max old n).toNat) = some h2 ∧ -1 ≤ n ∧
      (∃ e, h2 pe = some e ∧ e.GetSoftRejectedFor = n ∧
        e.nStatus.hasDataForSoftRejection = decide (n ≥ 0)) ∧
      ∀ (k q : Nat), ds[k]? = some q → ∃ d parent, h2 q = some d ∧
        d.GetSoftRejectedFor = (if (k : Int) + 1 ≤ n then n - ((k : Int) + 1) else -1) ∧
        d.nStatus.hasDataForSoftRejection = decide (d.GetSoftRejectedFor ≥ 0) ∧
        d.pprev.bind h2 = some parent ∧
        d.GetSoftRejectedFor =
          (if parent.GetSoftRejectedFor > 0 then parent.GetSoftRejectedFor - 1 else -1) := by
  obtain ⟨h1, h2, hS, hE, hn, ⟨e, he, hce, hfe⟩, hk⟩ :=
    soft_rejection_after h pe ds n (max old n).toNat hchain hnodup hset
  have hall := repropagation_entries h h2 pe ds n old hchain hdesc hk
  refine ⟨h1, h2, hS, hE, hn, ⟨e, he, hce, hfe⟩, ?_⟩
  intro k q hq
  obtain ⟨d, hd, hcnt, hflag, hprev⟩ := hall k q hq
  cases k with
  | zero =>
    refine ⟨d, e, hd, hcnt, hflag, ?_, ?_⟩
    · rw [hprev]
      simpa using he
    · rw [hcnt]
      unfold CBlockIndex.GetSoftRejectedFor
      rw [hce]
      push_cast
      split_ifs <;> omega
  | succ j =>
    have hjlt : j < ds.length := by
      have := (List.getElem?_eq_some.mp hq).1
      omega
    obtain ⟨par, hpar, hpcnt, _, _⟩ := hall j ds[j] (List.getElem?_eq_getElem hjlt)
    refine ⟨d, par, hd, hcnt, hflag, ?_, ?_⟩
    · rw [hprev]
      simp only [List.getElem?_cons_succ, List.getElem?_eq_getElem hjlt, Option.some_bind]
      exact hpar
    · rw [hcnt, hpcnt]
      push_cast
      split_ifs <;> omega

/-- Witness for C10: on the chain g, a, b, c, d with counters -1, 2, 1, 0, -1
(`softRejectedHeap`), `SetSoftRejectedFor(0)` on a followed by the
propagation over max(2, 0) = 2 levels. -/
theorem C10_soft_rejection_repropagation_witness :
    ∃ h1 h2, SetSoftRejectedFor softRejectedHeap 2 0 = some h1 ∧
      SetSoftRejectedFromParentEach h1 ([3, 4, 5].take (max (2 : Int) 0).toNat) = some h2 ∧
      (∃ e, h2 2 = some e ∧ e.GetSoftRejectedFor = 0 ∧
        e.nStatus.hasDataForSoftRejection = decide ((0 : Int) ≥ 0)) := by
  obtain ⟨h1, h2, hS, hE, _, he, _⟩ :=
    C10_soft_rejection_repropagation softRejectedHeap 2 [3, 4, 5] 0 2
      { nHeight := 1, pprev := some 1, nSoftRejected := 2, nStatus := ⟨0x100⟩ }
      (by decide) (by decide) (by decide) (by decide)
      (by
        intro k q hq
        match k, hq with
        | 0, hq =>
          simp only [List.getElem?_cons_zero, Option.some.injEq] at hq
          subst hq
          exact ⟨_, rfl, by decide, by decide⟩
        | 1, hq =>
          simp only [List.getElem?_cons_succ, List.getElem?_cons_zero,
            Option.some.injEq] at hq
          subst hq
          exact ⟨_, rfl, by decide, by decide⟩
        | 2, hq =>
          simp only [List.getElem?_cons_succ, List.getElem?_cons_zero,
            Option.some.injEq] at hq
          subst hq
          exact ⟨_, rfl, by decide, by decide⟩
        | k + 3, hq => simp at hq)
      (by decide)
  exact ⟨h1, h2, hS, hE, he⟩

/-! ## Status word: the `with` operations and the getters -/

theorem with_flag_and_other (s f g : Nat) (b : Bool)
    (h1 : BlockStatus.not32 f &&& g = g) (h2 : f &&& g = 0) :
    ((s &&& BlockStatus.not32 f) ||| (if b = true then f else 0)) &&& g = s &&& g := by
  apply and_or_and_of_disjoint _ _ _ _ h1
  cases b <;> simp [h2]

theorem with_flag_and_same (s f : Nat) (b : Bool) (h1 : BlockStatus.not32 f &&& f = 0) :
    ((s &&& BlockStatus.not32 f) ||| (if b = true then f else 0)) &&& f =
      if b = true then f else 0 := by
  rw [Nat.and_distrib_right, Nat.and_assoc, h1]
  cases b <;> simp

@[simp] theorem hasData_withData (s : BlockStatus) (b : Bool) :
    (s.withData b).hasData = b := by
  unfold BlockStatus.withData BlockStatus.hasData
  simp only
  rw [with_flag_and_same _ _ _ (by decide)]
  cases b <;> decide

@[simp] theorem hasUndo_withData (s : BlockStatus) (b : Bool) :
    (s.withData b).hasUndo = s.hasUndo := by
  unfold BlockStatus.withData BlockStatus.hasUndo
  simp only
  rw [with_flag_and_other _ _ _ _ (by decide) (by decide)]

@[simp] theorem hasFailed_withData (s : BlockStatus) (b : Bool) :
    (s.withData b).hasFailed = s.hasFailed := by
  unfold BlockStatus.withData BlockStatus.hasFailed
  simp only
  rw [with_flag_and_other _ _ _ _ (by decide) (by decide)]

@[simp] theorem hasFailedParent_withData (s : BlockStatus) (b : Bool) :
    (s.withData b).hasFailedParent = s.hasFailedParent := by
  unfold BlockStatus.withData BlockStatus.hasFailedParent
  simp only
  rw [with_flag_and_other _ _ _ _ (by decide) (by decide)]

@[simp] theorem hasDiskBlockMetaData_withData (s : BlockStatus) (b : Bool) :
    (s.withData b).hasDiskBlockMetaData = s.hasDiskBlockMetaData := by
  unfold BlockStatus.withData BlockStatus.hasDiskBlockMetaData
  simp only
  rw [with_flag_and_other _ _ _ _ (by decide) (by decide)]

@[simp] theorem hasDataForSoftRejection_withData (s : BlockStatus) (b : Bool) :
    (s.withData b).hasDataForSoftRejection = s.hasDataForSoftRejection := by
  unfold BlockStatus.withData BlockStatus.hasDataForSoftRejection
  simp only
  rw [with_flag_and_other _ _ _ _ (by decide) (by decide)]

@[simp] theorem getValidity_withData (s : BlockStatus) (b : Bool) :
    (s.withData b).getValidity = s.getValidity := by
  unfold BlockStatus.withData BlockStatus.getValidity
  simp only
  rw [with_flag_and_other _ _ _ _ (by decide) (by decide)]

@[simp] theorem isInvalid_withData (s : BlockStatus) (b : Bool) :
    (s.withData b).isInvalid = s.isInvalid := by
  unfold BlockStatus.withData BlockStatus.isInvalid
  simp only
  rw [with_flag_and_other _ _ _ _ (by decide) (by decide)]

@[simp] theorem hasData_withUndo (s : BlockStatus) (b : Bool) :
    (s.withUndo b).hasData = s.hasData := by
  unfold BlockStatus.withUndo BlockStatus.hasData
  simp only
  rw [with_flag_and_other _ _ _ _ (by decide) (by decide)]

@[simp] theorem hasUndo_withUndo (s : BlockStatus) (b : Bool) :
    (s.withUndo b).hasUndo = b := by
  unfold BlockStatus.withUndo BlockStatus.hasUndo
  simp only
  rw [with_flag_and_same _ _ _ (by decide)]
  cases b <;> decide

@[simp] theorem hasFailed_withUndo (s : BlockStatus) (b : Bool) :
    (s.withUndo b).hasFailed = s.hasFailed := by
  unfold BlockStatus.withUndo BlockStatus.hasFailed
  simp only
  rw [with_flag_and_other _ _ _ _ (by decide) (by decide)]

@[simp] theorem hasFailedParent_withUndo (s : BlockStatus) (b : Bool) :
    (s.withUndo b).hasFailedParent = s.hasFailedParent := by
  unfold BlockStatus.withUndo BlockStatus.hasFailedParent
  simp only
  rw [with_flag_and_other _ _ _ _ (by decide) (by decide)]

@[simp] theorem hasDiskBlockMetaData_withUndo (s : BlockStatus) (b : Bool) :
    (s.withUndo b).hasDiskBlockMetaData = s.hasDiskBlockMetaData := by
  unfold BlockStatus.withUndo BlockStatus.hasDiskBlockMetaData
  simp only
  rw [with_flag_and_other _ _ _ _ (by decide) (by decide)]

@[simp] theorem hasDataForSoftRejection_withUndo (s : BlockStatus) (b : Bool) :
    (s.withUndo b).hasDataForSoftRejection = s.hasDataForSoftRejection := by
  unfold BlockStatus.withUndo BlockStatus.hasDataForSoftRejection
  simp only
  rw [with_flag_and_other _ _ _ _ (by decide) (by decide)]

@[simp] theorem getValidity_withUndo (s : BlockStatus) (b : Bool) :
    (s.withUndo b).getValidity = s.getValidity := by
  unfold BlockStatus.withUndo BlockStatus.getValidity
  simp only
  rw [with_flag_and_other _ _ _ _ (by decide) (by decide)]

@[simp] theorem isInvalid_withUndo (s : BlockStatus) (b : Bool) :
    (s.withUndo b).isInvalid = s.isInvalid := by
  unfold BlockStatus.withUndo BlockStatus.isInvalid
  simp only
  rw [with_flag_and_other _ _ _ _ (by decide) (by decide)]

@[simp] theorem hasData_withFailed (s : BlockStatus) (b : Bool) :
    (s.withFailed b).hasData = s.hasData := by
  unfold BlockStatus.withFailed BlockStatus.hasData
  simp only
  rw [with_flag_and_other _ _ _ _ (by decide) (by decide)]

@[simp] theorem hasUndo_withFailed (s : BlockStatus) (b : Bool) :
    (s.withFailed b).hasUndo = s.hasUndo := by
  unfold BlockStatus.withFailed BlockStatus.hasUndo
  simp only
  rw [with_flag_and_other _ _ _ _ (by decide) (by decide)]

@[simp] theorem hasFailed_withFailed (s : BlockStatus) (b : Bool) :
    (s.withFailed b).hasFailed = b := by
  unfold BlockStatus.withFailed BlockStatus.hasFailed
  simp only
  rw [with_flag_and_same _ _ _ (by decide)]
  cases b <;> decide

@[simp] theorem hasFailedParent_withFailed (s : BlockStatus) (b : Bool) :
    (s.withFailed b).hasFailedParent = s.hasFailedParent := by
  unfold BlockStatus.withFailed BlockStatus.hasFailedParent
  simp only
  rw [with_flag_and_other _ _ _ _ (by decide) (by decide)]

@[simp] theorem hasDiskBlockMetaData_withFailed (s : BlockStatus) (b : Bool) :
    (s.withFailed b).hasDiskBlockMetaData = s.hasDiskBlockMetaData := by
  unfold BlockStatus.withFailed BlockStatus.hasDiskBlockMetaData
  simp only
  rw [with_flag_and_other _ _ _ _ (by decide) (by decide)]

@[simp] theorem hasDataForSoftRejection_withFailed (s : BlockStatus) (b : Bool) :
    (s.withFailed b).hasDataForSoftRejection = s.hasDataForSoftRejection := by
  unfold BlockStatus.withFailed BlockStatus.hasDataForSoftRejection
  simp only
  rw [with_flag_and_other _ _ _ _ (by decide) (by decide)]

@[simp] theorem getValidity_withFailed (s : BlockStatus) (b : Bool) :
    (s.withFailed b).getValidity = s.getValidity := by
  unfold BlockStatus.withFailed BlockStatus.getValidity
  simp only
  rw [with_flag_and_other _ _ _ _ (by decide) (by decide)]

@[simp] theorem hasData_withFailedParent (s : BlockStatus) (b : Bool) :
    (s.withFailedParent b).hasData = s.hasData := by
  unfold BlockStatus.withFailedParent BlockStatus.hasData
  simp only
  rw [with_flag_and_other _ _ _ _ (by decide) (by decide)]

@[simp] theorem hasUndo_withFailedParent (s : BlockStatus) (b : Bool) :
    (s.withFailedParent b).hasUndo = s.hasUndo := by
  unfold BlockStatus.withFailedParent BlockStatus.hasUndo
  simp only
  rw [with_flag_and_other _ _ _ _ (by decide) (by decide)]

@[simp] theorem hasFailed_withFailedParent (s : BlockStatus) (b : Bool) :
    (s.withFailedParent b).hasFailed = s.hasFailed := by
  unfold BlockStatus.withFailedParent BlockStatus.hasFailed
  simp only
  rw [with_flag_and_other _ _ _ _ (by decide) (by decide)]

@[simp] theorem hasFailedParent_withFailedParent (s : BlockStatus) (b : Bool) :
    (s.withFailedParent b).hasFailedParent = b := by
  unfold BlockStatus.withFailedParent BlockStatus.hasFailedParent
  simp only
  rw [with_flag_and_same _ _ _ (by decide)]
  cases b <;> decide

@[simp] theorem hasDiskBlockMetaData_withFailedParent (s : BlockStatus) (b : Bool) :
    (s.withFailedParent b).hasDiskBlockMetaData = s.hasDiskBlockMetaData := by
  unfold BlockStatus.withFailedParent BlockStatus.hasDiskBlockMetaData
  simp only
  rw [with_flag_and_other _ _ _ _ (by decide) (by decide)]

@[simp] theorem hasDataForSoftRejection_withFailedParent (s : BlockStatus) (b : Bool) :
    (s.withFailedParent b).hasDataForSoftRejection = s.hasDataForSoftRejection := by
  unfold BlockStatus.withFailedParent BlockStatus.hasDataForSoftRejection
  simp only
  rw [with_flag_and_other _ _ _ _ (by decide) (by decide)]

@[simp] theorem getValidity_withFailedParent (s : BlockStatus) (b : Bool) :
    (s.withFailedParent b).getValidity = s.getValidity := by
  unfold BlockStatus.withFailedParent BlockStatus.getValidity
  simp only
  rw [with_flag_and_other _ _ _ _ (by decide) (by decide)]

@[simp] theorem hasData_withDiskBlockMetaData (s : BlockStatus) (b : Bool) :
    (s.withDiskBlockMetaData b).hasData = s.hasData := by
  unfold BlockStatus.withDiskBlockMetaData BlockStatus.hasData
  simp only
  rw [with_flag_and_other _ _ _ _ (by decide) (by decide)]

@[simp] theorem hasUndo_withDiskBlockMetaData (s : BlockStatus) (b : Bool) :
    (s.withDiskBlockMetaData b).hasUndo = s.hasUndo := by
  unfold BlockStatus.withDiskBlockMetaData BlockStatus.hasUndo
  simp only
  rw [with_flag_and_other _ _ _ _ (by decide) (by decide)]

@[simp] theorem hasFailed_withDiskBlockMetaData (s : BlockStatus) (b : Bool) :
    (s.withDiskBlockMetaData b).hasFailed = s.hasFailed := by
  unfold BlockStatus.withDiskBlockMetaData BlockStatus.hasFailed
  simp only
  rw [with_flag_and_other _ _ _ _ (by decide) (by decide)]

@[simp] theorem hasFailedParent_withDiskBlockMetaData (s : BlockStatus) (b : Bool) :
    (s.withDiskBlockMetaData b).hasFailedParent = s.hasFailedParent := by
  unfold BlockStatus.withDiskBlockMetaData BlockStatus.hasFailedParent
  simp only
  rw [with_flag_and_other _ _ _ _ (by decide) (by decide)]

@[simp] theorem hasDiskBlockMetaData_withDiskBlockMetaData (s : BlockStatus) (b : Bool) :
    (s.withDiskBlockMetaData b).hasDiskBlockMetaData = b := by
  unfold BlockStatus.withDiskBlockMetaData BlockStatus.hasDiskBlockMetaData
  simp only
  rw [with_flag_and_same _ _ _ (by decide)]
  cases b <;> decide

@[simp] theorem hasDataForSoftRejection_withDiskBlockMetaData (s : BlockStatus) (b : Bool) :
    (s.withDiskBlockMetaData b).hasDataForSoftRejection = s.hasDataForSoftRejection := by
  unfold BlockStatus.withDiskBlockMetaData BlockStatus.hasDataForSoftRejection
  simp only
  rw [with_flag_and_other _ _ _ _ (by decide) (by decide)]

@[simp] theorem getValidity_withDiskBlockMetaData (s : BlockStatus) (b : Bool) :
    (s.withDiskBlockMetaData b).getValidity = s.getValidity := by
  unfold BlockStatus.withDiskBlockMetaData BlockStatus.getValidity
  simp only
  rw [with_flag_and_other _ _ _ _ (by decide) (by decide)]

@[simp] theorem isInvalid_withDiskBlockMetaData (s : BlockStatus) (b : Bool) :
    (s.withDiskBlockMetaData b).isInvalid = s.isInvalid := by
  unfold BlockStatus.withDiskBlockMetaData BlockStatus.isInvalid
  simp only
  rw [with_flag_and_other _ _ _ _ (by decide) (by decide)]

@[simp] theorem hasData_withDataForSoftRejection (s : BlockStatus) (b : Bool) :
    (s.withDataForSoftRejection b).hasData = s.hasData := by
  unfold BlockStatus.withDataForSoftRejection BlockStatus.hasData
  simp only
  rw [with_flag_and_other _ _ _ _ (by decide) (by decide)]

@[simp] theorem hasUndo_withDataForSoftRejection (s : BlockStatus) (b : Bool) :
    (s.withDataForSoftRejection b).hasUndo = s.hasUndo := by
  unfold BlockStatus.withDataForSoftRejection BlockStatus.hasUndo
  simp only
  rw [with_flag_and_other _ _ _ _ (by decide) (by decide)]

@[simp] theorem hasFailed_withDataForSoftRejection (s : BlockStatus) (b : Bool) :
    (s.withDataForSoftRejection b).hasFailed = s.hasFailed := by
  unfold BlockStatus.withDataForSoftRejection BlockStatus.hasFailed
  simp only
  rw [with_flag_and_other _ _ _ _ (by decide) (by decide)]

@[simp] theorem hasFailedParent_withDataForSoftRejection (s : BlockStatus) (b : Bool) :
    (s.withDataForSoftRejection b).hasFailedParent = s.hasFailedParent := by
  unfold BlockStatus.withDataForSoftRejection BlockStatus.hasFailedParent
  simp only
  rw [with_flag_and_other _ _ _ _ (by decide) (by decide)]

@[simp] theorem hasDiskBlockMetaData_withDataForSoftRejection (s : BlockStatus) (b : Bool) :
    (s.withDataForSoftRejection b).hasDiskBlockMetaData = s.hasDiskBlockMetaData := by
  unfold BlockStatus.withDataForSoftRejection BlockStatus.hasDiskBlockMetaData
  simp only
  rw [with_flag_and_other _ _ _ _ (by decide) (by decide)]

@[simp] theorem hasDataForSoftRejection_withDataForSoftRejection (s : BlockStatus) (b : Bool) :
    (s.withDataForSoftRejection b).hasDataForSoftRejection = b := by
  unfold BlockStatus.withDataForSoftRejection BlockStatus.hasDataForSoftRejection
  simp only
  rw [with_flag_and_same _ _ _ (by decide)]
  cases b <;> decide

@[simp] theorem getValidity_withDataForSoftRejection (s : BlockStatus) (b : Bool) :
    (s.withDataForSoftRejection b).getValidity = s.getValidity := by
  unfold BlockStatus.withDataForSoftRejection BlockStatus.getValidity
  simp only
  rw [with_flag_and_other _ _ _ _ (by decide) (by decide)]

@[simp] theorem isInvalid_withDataForSoftRejection (s : BlockStatus) (b : Bool) :
    (s.withDataForSoftRejection b).isInvalid = s.isInvalid := by
  unfold BlockStatus.withDataForSoftRejection BlockStatus.isInvalid
  simp only
  rw [with_flag_and_other _ _ _ _ (by decide) (by decide)]

@[simp] theorem hasData_withValidity (s : BlockStatus) (v : BlockValidity) :
    (s.withValidity v).hasData = s.hasData := by
  unfold BlockStatus.hasData
  rw [withValidity_and_flag _ _ _ (by decide) (by decide)]

@[simp] theorem hasUndo_withValidity (s : BlockStatus) (v : BlockValidity) :
    (s.withValidity v).hasUndo = s.hasUndo := by
  unfold BlockStatus.hasUndo
  rw [withValidity_and_flag _ _ _ (by decide) (by decide)]

@[simp] theorem hasFailed_withValidity (s : BlockStatus) (v : BlockValidity) :
    (s.withValidity v).hasFailed = s.hasFailed := by
  unfold BlockStatus.hasFailed
  rw [withValidity_and_flag _ _ _ (by decide) (by decide)]

@[simp] theorem hasFailedParent_withValidity (s : BlockStatus) (v : BlockValidity) :
    (s.withValidity v).hasFailedParent = s.hasFailedParent := by
  unfold BlockStatus.hasFailedParent
  rw [withValidity_and_flag _ _ _ (by decide) (by decide)]

@[simp] theorem hasDiskBlockMetaData_withValidity (s : BlockStatus) (v : BlockValidity) :
    (s.withValidity v).hasDiskBlockMetaData = s.hasDiskBlockMetaData := by
  unfold BlockStatus.hasDiskBlockMetaData
  rw [withValidity_and_flag _ _ _ (by decide) (by decide)]

@[simp] theorem hasDataForSoftRejection_withValidity (s : BlockStatus) (v : BlockValidity) :
    (s.withValidity v).hasDataForSoftRejection = s.hasDataForSoftRejection := by
  unfold BlockStatus.hasDataForSoftRejection
  rw [withValidity_and_flag _ _ _ (by decide) (by decide)]

@[simp] theorem isInvalid_withValidity (s : BlockStatus) (v : BlockValidity) :
    (s.withValidity v).isInvalid = s.isInvalid := by
  unfold BlockStatus.isInvalid
  rw [withValidity_and_flag _ _ _ (by decide) (by decide)]

/-! ## Disk location -/

theorem clearFileInfo_status_idem (s : BlockStatus) :
    ((((((s.withData false).withUndo false).withDiskBlockMetaData false).withData
      false).withUndo false).withDiskBlockMetaData false) =
    (((s.withData false).withUndo false).withDiskBlockMetaData false) := by
  unfold BlockStatus.withData BlockStatus.withUndo BlockStatus.withDiskBlockMetaData
  simp only [Bool.false_eq_true, if_false, Nat.or_zero, BlockStatus.mk.injEq]
  apply Nat.eq_of_testBit_eq
  intro i
  simp only [Nat.testBit_and]
  cases Nat.testBit s.status i <;>
    cases Nat.testBit (BlockStatus.not32 BlockStatus.HAS_DATA_FLAG) i <;>
    cases Nat.testBit (BlockStatus.not32 BlockStatus.HAS_UNDO_FLAG) i <;>
    cases Nat.testBit (BlockStatus.not32 BlockStatus.HAS_DISK_BLOCK_META_DATA_FLAG) i <;>
    rfl

/-- Claim C13: `GetBlockPos()` returns the position `(nFile, nDataPos)` if
the status has HAS_DATA and the empty position otherwise; the undo-position
getter returns `(nFile, nUndoPos)` if the status has HAS_UNDO and the empty
position otherwise.  The getters are `const`: they are functions of the
entry and produce no new entry. -/
theorem C13_GetBlockPos_GetUndoPos (null : CDiskBlockPos) (e : CBlockIndex) :
    (e.nStatus.hasData = true →
      e.GetBlockPos null = { nFile := e.nFile, nPos := e.nDataPos }) ∧
    (e.nStatus.hasData = false → e.GetBlockPos null = null) ∧
    (e.nStatus.hasUndo = true →
      e.GetUndoPosNL null = { nFile := e.nFile, nPos := e.nUndoPos }) ∧
    (e.nStatus.hasUndo = false → e.GetUndoPosNL null = null) := by
  unfold CBlockIndex.GetBlockPos CBlockIndex.GetBlockPosNL CBlockIndex.GetUndoPosNL
  refine ⟨?_, ?_, ?_, ?_⟩ <;> intro h <;> simp [h]

/-- Claim C17: after `ClearFileInfo()` the flags HAS_DATA, HAS_UNDO and
HAS_DISK_BLOCK_META_DATA are unset, `nFile`, the data offset and the undo
offset are 0, the disk metadata is the empty pair and `GetBlockPos()` returns
the empty position; the validity level, FAILED, FAILED_PARENT, HAS_SOFT_REJ,
`nTx`, `nChainTx`, the header fields, chain work, height and the
soft-rejection counter are unchanged; and `ClearFileInfo` is idempotent. -/
theorem C17_ClearFileInfo (null : CDiskBlockPos) (e : CBlockIndex) :
    e.ClearFileInfo.nStatus.hasData = false ∧
    e.ClearFileInfo.nStatus.hasUndo = false ∧
    e.ClearFileInfo.nStatus.hasDiskBlockMetaData = false ∧
    e.ClearFileInfo.nFile = 0 ∧
    e.ClearFileInfo.nDataPos = 0 ∧
    e.ClearFileInfo.nUndoPos = 0 ∧
    e.ClearFileInfo.GetDiskBlockMetaData = { diskDataHash := 0, diskDataSize := 0 } ∧
    e.ClearFileInfo.GetBlockPos null = null ∧
    e.ClearFileInfo.nStatus.getValidity = e.nStatus.getValidity ∧
    e.ClearFileInfo.nStatus.hasFailed = e.nStatus.hasFailed ∧
    e.ClearFileInfo.nStatus.hasFailedParent = e.nStatus.hasFailedParent ∧
    e.ClearFileInfo.nStatus.hasDataForSoftRejection = e.nStatus.hasDataForSoftRejection ∧
    e.ClearFileInfo.nTx = e.nTx ∧
    e.ClearFileInfo.nChainTx = e.nChainTx ∧
    e.ClearFileInfo.nVersion = e.nVersion ∧
    e.ClearFileInfo.hashMerkleRoot = e.hashMerkleRoot ∧
    e.ClearFileInfo.nTime = e.nTime ∧
    e.ClearFileInfo.nBits = e.nBits ∧
    e.ClearFileInfo.nNonce = e.nNonce ∧
    e.ClearFileInfo.nChainWork = e.nChainWork ∧
    e.ClearFileInfo.nHeight = e.nHeight ∧
    e.ClearFileInfo.GetSoftRejectedFor = e.GetSoftRejectedFor ∧
    e.ClearFileInfo.ClearFileInfo = e.ClearFileInfo := by
  have hs : e.ClearFileInfo.nStatus =
      ((e.nStatus.withData false).withUndo false).withDiskBlockMetaData false := rfl
  refine ⟨?_, ?_, ?_, rfl, rfl, rfl, rfl, ?_, ?_, ?_, ?_, ?_, rfl, rfl, rfl, rfl, rfl, rfl,
    rfl, rfl, rfl, rfl, ?_⟩
  · rw [hs]; simp
  · rw [hs]; simp
  · rw [hs]; simp
  · unfold CBlockIndex.GetBlockPos CBlockIndex.GetBlockPosNL
    rw [hs]; simp
  · rw [hs]; simp
  · rw [hs]; simp
  · rw [hs]; simp
  · rw [hs]; simp
  · unfold CBlockIndex.ClearFileInfo
    simp only [clearFileInfo_status_idem]

/-! ## Construction and persistent data -/

/-- Claim C18: after `e.LoadFromPersistentData(other, p)` the parent of `e`
is `p` and every persistent field of `e` equals that of `other`: height,
file number, data offset, undo offset, version, merkle root, time, bits,
nonce, status word, `nTx`, disk metadata and soft-rejection counter. -/
theorem C18_LoadFromPersistentData_persistent (e other : CBlockIndex) (p : Option Nat) :
    (e.LoadFromPersistentData other p).pprev = p ∧
    (e.LoadFromPersistentData other p).nHeight = other.nHeight ∧
    (e.LoadFromPersistentData other p).nFile = other.nFile ∧
    (e.LoadFromPersistentData other p).nDataPos = other.nDataPos ∧
    (e.LoadFromPersistentData other p).nUndoPos = other.nUndoPos ∧
    (e.LoadFromPersistentData other p).nVersion = other.nVersion ∧
    (e.LoadFromPersistentData other p).hashMerkleRoot = other.hashMerkleRoot ∧
    (e.LoadFromPersistentData other p).nTime = other.nTime ∧
    (e.LoadFromPersistentData other p).nBits = other.nBits ∧
    (e.LoadFromPersistentData other p).nNonce = other.nNonce ∧
    (e.LoadFromPersistentData other p).nStatus = other.nStatus ∧
    (e.LoadFromPersistentData other p).nTx = other.nTx ∧
    (e.LoadFromPersistentData other p).GetDiskBlockMetaData = other.GetDiskBlockMetaData ∧
    (e.LoadFromPersistentData other p).GetSoftRejectedFor = other.GetSoftRejectedFor :=
  ⟨rfl, rfl, rfl, rfl, rfl, rfl, rfl, rfl, rfl, rfl, rfl, rfl, rfl, rfl⟩

/-- Counterexample to C19 as stated: a default constructed entry has the
maximum sentinel as validation-completion time; after
`LoadFromPersistentData` from a source whose validation-completion time is
the minimum sentinel it holds the minimum sentinel. -/
theorem C19_LoadFromPersistentData_counterexample :
    ({} : CBlockIndex).GetValidationCompletionTime = SteadyClockTimePoint.max ∧
    (({} : CBlockIndex).LoadFromPersistentData
      { mValidationCompletionTime := SteadyClockTimePoint.min }
      none).GetValidationCompletionTime = SteadyClockTimePoint.min ∧
    SteadyClockTimePoint.min ≠ SteadyClockTimePoint.max := by
  decide

/-- Claim C19, amended: after `e.LoadFromPersistentData(other, p)` the
memory-only fields chain work, cumulative transaction count, running
maximum time, sequence id, header-received time and the skip pointer have
the value they had in `e` before the call, whatever the values in `other`;
the validation-completion time is copied from `other`. -/
theorem C19_LoadFromPersistentData_memory_only (e other : CBlockIndex) (p : Option Nat) :
    (e.LoadFromPersistentData other p).nChainWork = e.nChainWork ∧
    (e.LoadFromPersistentData other p).nChainTx = e.nChainTx ∧
    (e.LoadFromPersistentData other p).nTimeMax = e.nTimeMax ∧
    (e.LoadFromPersistentData other p).nSequenceId = e.nSequenceId ∧
    (e.LoadFromPersistentData other p).nTimeReceived = e.nTimeReceived ∧
    (e.LoadFromPersistentData other p).pskip = e.pskip ∧
    (e.LoadFromPersistentData other p).GetValidationCompletionTime =
      other.GetValidationCompletionTime :=
  ⟨rfl, rfl, rfl, rfl, rfl, rfl, rfl⟩

/-- Claim C20: the entry constructed from a header `h` has the version,
merkle root, time, bits and nonce of `h`, `nTimeReceived` equal to `h.nTime`,
no parent, no skip pointer, height 0, file number 0, data and undo offsets
0, chain work 0, `nTx` 0, `nChainTx` 0, sequence id 0, `nTimeMax` 0, empty
disk metadata and the status word 0 (validity UNKNOWN, no flag); it is not
soft rejected (counter -1) and its validation-completion time is the
maximum sentinel. -/
theorem C20_fromHeader (block : CBlockHeader) :
    (CBlockIndex.fromHeader block).nVersion = block.nVersion ∧
    (CBlockIndex.fromHeader block).hashMerkleRoot = block.hashMerkleRoot ∧
    (CBlockIndex.fromHeader block).nTime = block.nTime ∧
    (CBlockIndex.fromHeader block).nBits = block.nBits ∧
    (CBlockIndex.fromHeader block).nNonce = block.nNonce ∧
    (CBlockIndex.fromHeader block).nTimeReceived = block.nTime ∧
    (CBlockIndex.fromHeader block).pprev = none ∧
    (CBlockIndex.fromHeader block).pskip = none ∧
    (CBlockIndex.fromHeader block).phashBlock = none ∧
    (CBlockIndex.fromHeader block).nHeight = 0 ∧
    (CBlockIndex.fromHeader block).nFile = 0 ∧
    (CBlockIndex.fromHeader block).nDataPos = 0 ∧
    (CBlockIndex.fromHeader block).nUndoPos = 0 ∧
    (CBlockIndex.fromHeader block).nChainWork = 0 ∧
    (CBlockIndex.fromHeader block).nTx = 0 ∧
    (CBlockIndex.fromHeader block).nChainTx = 0 ∧
    (CBlockIndex.fromHeader block).nSequenceId = 0 ∧
    (CBlockIndex.fromHeader block).nTimeMax = 0 ∧
    (CBlockIndex.fromHeader block).GetDiskBlockMetaData =
      { diskDataHash := 0, diskDataSize := 0 } ∧
    (CBlockIndex.fromHeader block).nStatus.status = 0 ∧
    (CBlockIndex.fromHeader block).nStatus.getValidity = BlockValidity.UNKNOWN.toNat ∧
    (CBlockIndex.fromHeader block).nStatus.hasData = false ∧
    (CBlockIndex.fromHeader block).nStatus.hasUndo = false ∧
    (CBlockIndex.fromHeader block).nStatus.hasFailed = false ∧
    (CBlockIndex.fromHeader block).nStatus.hasFailedParent = false ∧
    (CBlockIndex.fromHeader block).nStatus.hasDiskBlockMetaData = false ∧
    (CBlockIndex.fromHeader block).nStatus.hasDataForSoftRejection = false ∧
    (CBlockIndex.fromHeader block).IsSoftRejected = false ∧
    (CBlockIndex.fromHeader block).GetSoftRejectedFor = -1 ∧
    (CBlockIndex.fromHeader block).GetValidationCompletionTime =
      SteadyClockTimePoint.max := by
  have hs : (CBlockIndex.fromHeader block).nStatus = { status := 0 } := rfl
  have hr : (CBlockIndex.fromHeader block).IsSoftRejected = decide ((-1 : Int) ≥ 0) := rfl
  rw [hs, hr]
  refine ⟨rfl, rfl, rfl, rfl, rfl, rfl, rfl, rfl, rfl, rfl, rfl, rfl, rfl, rfl, rfl, rfl,
    rfl, rfl, rfl, rfl, ?_, ?_, ?_, ?_, ?_, ?_, ?_, ?_, rfl, rfl⟩ <;> decide

/-! ## `SetDiskBlockData`, `SetDiskBlockMetaData` and the disk-location invariant -/

theorem SetDiskBlockData_eq (e : CBlockIndex) (now : Int) (c : Nat) (pos : CDiskBlockPos)
    (m : CDiskBlockMetaData) :
    e.SetDiskBlockData now c pos m =
      { e with
        nTx := c % 2 ^ 32
        nChainTx := 0
        nFile := pos.nFile
        nDataPos := pos.nPos
        nUndoPos := 0
        nStatus :=
          if m.diskDataHash ≠ 0 ∧ m.diskDataSize ≠ 0 then
            (if e.nStatus.isInvalid = true ∨ e.nStatus.getValidity ≥ 3 then
              e.nStatus.withData true
            else (e.nStatus.withData true).withValidity
              BlockValidity.TRANSACTIONS).withDiskBlockMetaData true
          else
            (if e.nStatus.isInvalid = true ∨ e.nStatus.getValidity ≥ 3 then
              e.nStatus.withData true
            else (e.nStatus.withData true).withValidity BlockValidity.TRANSACTIONS)
        mDiskBlockMetaData :=
          if m.diskDataHash ≠ 0 ∧ m.diskDataSize ≠ 0 then m else e.mDiskBlockMetaData } := by
  unfold CBlockIndex.SetDiskBlockData CBlockIndex.RaiseValidity
    CBlockIndex.ValidityChangeRequiresValidationTimeSetting
  simp only [isInvalid_withData, getValidity_withData, CDiskBlockPos.File, CDiskBlockPos.Pos]
  have h3 : BlockValidity.TRANSACTIONS.toNat = 3 := rfl
  rw [h3]
  by_cases hm : m.diskDataHash ≠ 0 ∧ m.diskDataSize ≠ 0
  · by_cases hi : e.nStatus.isInvalid = true
    · simp [hm, hi]
    · by_cases hv : e.nStatus.getValidity ≥ 3
      · simp [hm, hi, hv]
      · simp [hm, hi, hv]
  · by_cases hi : e.nStatus.isInvalid = true
    · simp [hm, hi]
    · by_cases hv : e.nStatus.getValidity ≥ 3
      · simp [hm, hi, hv]
      · simp [hm, hi, hv]

/-- Claim C14: after `SetDiskBlockData(c, pos, m)` with `c < 2^32`,
`nTx == c`, `nChainTx == 0`, `nFile` and the data offset are those of `pos`,
the undo offset is 0, HAS_DATA is set and `GetBlockPos()` returns `pos`.  If
`m` has a non-null hash and a non-zero size, `GetDiskBlockMetaData() == m`
and HAS_DISK_BLOCK_META_DATA is set; otherwise the stored metadata and that
flag are unchanged.  Header fields, chain work, soft-rejection counter and
the FAILED, FAILED_PARENT, HAS_UNDO and HAS_SOFT_REJ bits are unchanged. -/
theorem C14_SetDiskBlockData (null : CDiskBlockPos) (e : CBlockIndex) (now : Int) (c : Nat)
    (pos : CDiskBlockPos) (m : CDiskBlockMetaData) (hc : c < 2 ^ 32) :
    (e.SetDiskBlockData now c pos m).nTx = c ∧
    (e.SetDiskBlockData now c pos m).nChainTx = 0 ∧
    (e.SetDiskBlockData now c pos m).nFile = pos.File ∧
    (e.SetDiskBlockData now c pos m).nDataPos = pos.Pos ∧
    (e.SetDiskBlockData now c pos m).nUndoPos = 0 ∧
    (e.SetDiskBlockData now c pos m).nStatus.hasData = true ∧
    (e.SetDiskBlockData now c pos m).GetBlockPos null = pos ∧
    ((m.diskDataHash ≠ 0 ∧ m.diskDataSize ≠ 0) →
      (e.SetDiskBlockData now c pos m).GetDiskBlockMetaData = m ∧
      (e.SetDiskBlockData now c pos m).nStatus.hasDiskBlockMetaData = true) ∧
    (¬ (m.diskDataHash ≠ 0 ∧ m.diskDataSize ≠ 0) →
      (e.SetDiskBlockData now c pos m).GetDiskBlockMetaData = e.GetDiskBlockMetaData ∧
      (e.SetDiskBlockData now c pos m).nStatus.hasDiskBlockMetaData =
        e.nStatus.hasDiskBlockMetaData) ∧
    (e.SetDiskBlockData now c pos m).nVersion = e.nVersion ∧
    (e.SetDiskBlockData now c pos m).hashMerkleRoot = e.hashMerkleRoot ∧
    (e.SetDiskBlockData now c pos m).nTime = e.nTime ∧
    (e.SetDiskBlockData now c pos m).nBits = e.nBits ∧
    (e.SetDiskBlockData now c pos m).nNonce = e.nNonce ∧
    (e.SetDiskBlockData now c pos m).nChainWork = e.nChainWork ∧
    (e.SetDiskBlockData now c pos m).GetSoftRejectedFor = e.GetSoftRejectedFor ∧
    (e.SetDiskBlockData now c pos m).nStatus.hasFailed = e.nStatus.hasFailed ∧
    (e.SetDiskBlockData now c pos m).nStatus.hasFailedParent = e.nStatus.hasFailedParent ∧
    (e.SetDiskBlockData now c pos m).nStatus.hasUndo = e.nStatus.hasUndo ∧
    (e.SetDiskBlockData now c pos m).nStatus.hasDataForSoftRejection =
      e.nStatus.hasDataForSoftRejection := by
  have hdata : (e.SetDiskBlockData now c pos m).nStatus.hasData = true := by
    rw [SetDiskBlockData_eq]
    simp only
    split_ifs <;> simp
  rw [SetDiskBlockData_eq] at hdata ⊢
  refine ⟨Nat.mod_eq_of_lt hc, rfl, rfl, rfl, rfl, hdata, ?_, ?_, ?_, rfl, rfl, rfl, rfl,
    rfl, rfl, rfl, ?_, ?_, ?_, ?_⟩
  · unfold CBlockIndex.GetBlockPos CBlockIndex.GetBlockPosNL
    rw [if_pos hdata]
  · intro hm
    unfold CBlockIndex.GetDiskBlockMetaData
    simp only
    rw [if_pos hm, if_pos hm]
    exact ⟨rfl, by simp⟩
  · intro hm
    unfold CBlockIndex.GetDiskBlockMetaData
    simp only
    rw [if_neg hm, if_neg hm]
    refine ⟨rfl, ?_⟩
    split_ifs <;> simp
  · simp only
    split_ifs <;> simp
  · simp only
    split_ifs <;> simp
  · simp only
    split_ifs <;> simp
  · simp only
    split_ifs <;> simp

/-- Witness for C14: a freshly constructed entry, one transaction, position
(0, 8), no metadata. -/
theorem C14_SetDiskBlockData_witness :
    (({} : CBlockIndex).SetDiskBlockData 0 1 { nFile := 0, nPos := 8 } {}).GetBlockPos
      { nFile := -1, nPos := 0 } = { nFile := 0, nPos := 8 } :=
  (C14_SetDiskBlockData { nFile := -1, nPos := 0 } {} 0 1 { nFile := 0, nPos := 8 } {}
    (by decide)).2.2.2.2.2.2.1

/-- Counterexample to C15 as stated: an entry whose status is FAILED with
validity UNKNOWN is invalid, and after `SetDiskBlockData` its validity is
still UNKNOWN, below TRANSACTIONS. -/
theorem C15_SetDiskBlockData_validity_counterexample :
    (({ nStatus := { status := 0x20 } } : CBlockIndex).nStatus.isInvalid = true) ∧
    (({ nStatus := { status := 0x20 } } : CBlockIndex).SetDiskBlockData 0 1
      { nFile := 0, nPos := 8 } {}).nStatus.getValidity = 0 ∧
    ¬ ((({ nStatus := { status := 0x20 } } : CBlockIndex).SetDiskBlockData 0 1
      { nFile := 0, nPos := 8 } {}).nStatus.getValidity ≥
        BlockValidity.TRANSACTIONS.toNat) := by
  decide

/-- Claim C15, amended: for every entry whose status is not invalid (neither
FAILED nor FAILED_PARENT set) and all arguments, after `SetDiskBlockData` the
validity level of the status is at least TRANSACTIONS. -/
theorem C15_SetDiskBlockData_validity (e : CBlockIndex) (now : Int) (c : Nat)
    (pos : CDiskBlockPos) (m : CDiskBlockMetaData) (hvalid : e.nStatus.isInvalid = false) :
    (e.SetDiskBlockData now c pos m).nStatus.getValidity ≥
      BlockValidity.TRANSACTIONS.toNat := by
  rw [SetDiskBlockData_eq]
  have h3 : BlockValidity.TRANSACTIONS.toNat = 3 := rfl
  simp only [hvalid, Bool.false_eq_true, false_or, h3]
  split_ifs with h1 h2 h2
  · simpa using h2
  · simp [getValidity_withValidity, h3]
  · simpa using h2
  · simp [getValidity_withValidity, h3]

/-- Witness for C15: a freshly constructed entry. -/
theorem C15_SetDiskBlockData_validity_witness :
    (({} : CBlockIndex).SetDiskBlockData 0 1 { nFile := 0, nPos := 8 }
      {}).nStatus.getValidity ≥ BlockValidity.TRANSACTIONS.toNat :=
  C15_SetDiskBlockData_validity {} 0 1 { nFile := 0, nPos := 8 } {} (by decide)

theorem SetDiskBlockMetaData_eq (e e1 : CBlockIndex) (hash size : Nat)
    (h : e.SetDiskBlockMetaData hash size = some e1) :
    hash ≠ 0 ∧ size ≠ 0 ∧
    e1 = { e with
      mDiskBlockMetaData := { diskDataHash := hash, diskDataSize := size }
      nStatus := e.nStatus.withDiskBlockMetaData true } := by
  unfold CBlockIndex.SetDiskBlockMetaData at h
  by_cases hh : hash = 0
  · simp [hh] at h
  · by_cases hs : size > 0
    · simp only [hh, hs, if_false, not_true_eq_false, Option.some.injEq] at h
      exact ⟨hh, Nat.pos_iff_ne_zero.mp hs, h.symm⟩
    · simp [hh, hs] at h

/-- Counterexample to C16 as stated: a freshly constructed entry satisfies
the disk-location invariant, but not after `SetDiskBlockData` with a position
whose offset is 0 (HAS_DATA set, data offset 0); and an entry with data and
undo data at offsets 8 satisfies it, but not after `SetDiskBlockData`, which
zeroes the undo offset and leaves HAS_UNDO set. -/
theorem C16_disk_location_invariant_counterexample :
    DiskLocationInvariant (CBlockIndex.fromHeader {}) ∧
    ¬ DiskLocationInvariant
      ((CBlockIndex.fromHeader {}).SetDiskBlockData 0 1 { nFile := 0, nPos := 0 } {}) ∧
    DiskLocationInvariant
      { nDataPos := 8, nUndoPos := 8, nStatus := { status := 0x1B } } ∧
    ¬ DiskLocationInvariant
      (({ nDataPos := 8, nUndoPos := 8, nStatus := { status := 0x1B } } :
        CBlockIndex).SetDiskBlockData 0 1 { nFile := 0, nPos := 100 } {}) := by
  decide

/-- Claim C16, amended: the disk-location invariant (data offset non-zero iff
HAS_DATA, undo offset non-zero iff HAS_UNDO, disk-meta pair set iff
HAS_DISK_BLOCK_META_DATA) holds for a freshly constructed entry, is
preserved by `SetDiskBlockMetaData` for all arguments that pass its
assertions, holds after `ClearFileInfo`, and is preserved by
`SetDiskBlockData` when the offset of the position is non-zero and HAS_UNDO
is not set before the call. -/
theorem C16_disk_location_invariant (block : CBlockHeader) (e e1 : CBlockIndex)
    (hash size : Nat) (now : Int) (c : Nat) (pos : CDiskBlockPos)
    (m : CDiskBlockMetaData) :
    DiskLocationInvariant (CBlockIndex.fromHeader block) ∧
    (DiskLocationInvariant e → e.SetDiskBlockMetaData hash size = some e1 →
      DiskLocationInvariant e1) ∧
    (DiskLocationInvariant e → DiskLocationInvariant e.ClearFileInfo) ∧
    (DiskLocationInvariant e → pos.Pos ≠ 0 → e.nStatus.hasUndo = false →
      DiskLocationInvariant (e.SetDiskBlockData now c pos m)) := by
  refine ⟨?_, ?_, ?_, ?_⟩
  · have hs : (CBlockIndex.fromHeader block).nStatus = { status := 0 } := rfl
    unfold DiskLocationInvariant
    rw [hs]
    refine ⟨?_, ?_, ?_⟩
    · show ((0 : Nat) ≠ 0 ↔ _)
      decide
    · show ((0 : Nat) ≠ 0 ↔ _)
      decide
    · show (((0 : Nat) ≠ 0 ∧ (0 : Nat) ≠ 0) ↔ _)
      decide
  · intro hinv hset
    obtain ⟨hh, hs, he1⟩ := SetDiskBlockMetaData_eq e e1 hash size hset
    subst he1
    unfold DiskLocationInvariant at hinv ⊢
    refine ⟨?_, ?_, ?_⟩
    · simpa using hinv.1
    · simpa using hinv.2.1
    · simp [hh, hs]
  · intro _
    have hs : e.ClearFileInfo.nStatus =
        ((e.nStatus.withData false).withUndo false).withDiskBlockMetaData false := rfl
    unfold DiskLocationInvariant
    rw [hs]
    refine ⟨?_, ?_, ?_⟩
    · show ((0 : Nat) ≠ 0 ↔ _)
      simp
    · show ((0 : Nat) ≠ 0 ↔ _)
      simp
    · show (((0 : Nat) ≠ 0 ∧ (0 : Nat) ≠ 0) ↔ _)
      simp
  · intro hinv hpos hundo
    unfold DiskLocationInvariant at hinv ⊢
    rw [SetDiskBlockData_eq]
    simp only
    refine ⟨?_, ?_, ?_⟩
    · have : pos.nPos ≠ 0 := hpos
      split_ifs <;> simp [this]
    · split_ifs <;> simp [hundo]
    · by_cases hm : m.diskDataHash ≠ 0 ∧ m.diskDataSize ≠ 0
      · rw [if_pos hm, if_pos hm]
        simp [hm.1, hm.2]
      · rw [if_neg hm, if_neg hm]
        rw [hinv.2.2]
        split_ifs <;> simp

/-- Witness for C16: `SetDiskBlockData` with position (0, 8) on a freshly
constructed entry keeps the invariant. -/
theorem C16_disk_location_invariant_witness :
    DiskLocationInvariant
      ((CBlockIndex.fromHeader {}).SetDiskBlockData 0 1 { nFile := 0, nPos := 8 } {}) :=
  (C16_disk_location_invariant {} (CBlockIndex.fromHeader {}) {} 0 0 0 1
    { nFile := 0, nPos := 8 } {}).2.2.2 (by decide) (by decide) (by decide)

/-! ## Soft-rejection invariant and `SetSoftRejectedFor` -/

theorem store_forall (P : CBlockIndex → Prop) (h : Heap) (p : Nat) (e1 : CBlockIndex)
    (hinv : ∀ q e, h q = some e → P e) (he1 : P e1) :
    ∀ q e, h.store p e1 q = some e → P e := by
  intro q e hq
  by_cases hqp : q = p
  · subst hqp
    rw [store_same] at hq
    cases hq
    exact he1
  · rw [store_other _ _ _ _ hqp] at hq
    exact hinv q e hq

theorem SoftRejectionInvariant_of_eq (e e1 : CBlockIndex)
    (hc : e1.nSoftRejected = e.nSoftRejected)
    (hf : e1.nStatus.hasDataForSoftRejection = e.nStatus.hasDataForSoftRejection)
    (h : SoftRejectionInvariant e) : SoftRejectionInvariant e1 := by
  unfold SoftRejectionInvariant CBlockIndex.IsSoftRejected CBlockIndex.IsSoftRejectedNL at h ⊢
  rw [hc, hf]
  exact h

theorem SoftRejectionInvariant_of_flag (e : CBlockIndex) (h1 : e.nSoftRejected ≥ -1)
    (h2 : e.nStatus.hasDataForSoftRejection = decide (e.nSoftRejected ≥ 0)) :
    SoftRejectionInvariant e := by
  unfold SoftRejectionInvariant CBlockIndex.IsSoftRejected CBlockIndex.IsSoftRejectedNL
  rw [h2]
  simp only [decide_eq_true_eq, iff_self, and_true]
  exact h1

theorem RaiseValidity_soft_rejection (e : CBlockIndex) (now : Int) (v : BlockValidity) :
    (e.RaiseValidity now v).2.nSoftRejected = e.nSoftRejected ∧
    (e.RaiseValidity now v).2.nStatus.hasDataForSoftRejection =
      e.nStatus.hasDataForSoftRejection := by
  unfold CBlockIndex.RaiseValidity
  split_ifs <;> simp

theorem call_preserves_SoftRejectionInvariant (GetBlockProof : CBlockIndex → Nat)
    (h h1 : Heap) (p : Nat) (c : Call)
    (hinv : ∀ q e, h q = some e → SoftRejectionInvariant e)
    (hc : h.call GetBlockProof p c = some h1) :
    ∀ q e, h1 q = some e → SoftRejectionInvariant e := by
  cases c with
  | SetSoftRejectedFor n =>
    simp only [Heap.call] at hc
    obtain ⟨e0, e1, _, hn, hS, hcnt, hflag, _⟩ :=
      SetSoftRejectedFor_eq h p n (by rw [hc]; rfl)
    rw [hc] at hS
    cases hS
    apply store_forall _ _ _ _ hinv
    apply SoftRejectionInvariant_of_flag
    · rw [hcnt]; exact hn
    · rw [hflag, hcnt]
  | SetSoftRejectedFromParent =>
    simp only [Heap.call] at hc
    cases hp : h p with
    | none => simp [SetSoftRejectedFromParent, hp] at hc
    | some e =>
      cases hpp : e.pprev with
      | none =>
        simp [SetSoftRejectedFromParent, hp,
          CBlockIndex.ShouldBeConsideredSoftRejectedBecauseOfParentNL, hpp] at hc
      | some pp =>
        cases hpar : h pp with
        | none =>
          simp [SetSoftRejectedFromParent, hp,
            CBlockIndex.ShouldBeConsideredSoftRejectedBecauseOfParentNL, hpp, hpar] at hc
        | some par =>
          obtain ⟨e1, hset, hcnt, hflag, _⟩ :=
            SetSoftRejectedFromParent_eq h p pp e par hp hpp hpar
          rw [hc] at hset
          cases hset
          apply store_forall _ _ _ _ hinv
          apply SoftRejectionInvariant_of_flag _ _ hflag
          rw [hcnt]
          unfold softRejectedFromParentValue
          split_ifs <;> omega
  | RaiseValidity now v =>
    simp only [Heap.call] at hc
    cases hp : h p with
    | none => simp [hp] at hc
    | some e =>
      simp only [hp, Option.some.injEq] at hc
      subst hc
      apply store_forall _ _ _ _ hinv
      exact SoftRejectionInvariant_of_eq e _ (RaiseValidity_soft_rejection e now v).1
        (RaiseValidity_soft_rejection e now v).2 (hinv p e hp)
  | SetDiskBlockData now n pos m =>
    simp only [Heap.call] at hc
    cases hp : h p with
    | none => simp [hp] at hc
    | some e =>
      simp only [hp, Option.some.injEq] at hc
      subst hc
      apply store_forall _ _ _ _ hinv
      apply SoftRejectionInvariant_of_eq e _ _ _ (hinv p e hp)
      · rw [SetDiskBlockData_eq]
      · rw [SetDiskBlockData_eq]
        simp only
        split_ifs <;> simp
  | SetDiskBlockMetaData hash size =>
    simp only [Heap.call] at hc
    cases hp : h p with
    | none => simp [hp] at hc
    | some e =>
      cases hs : e.SetDiskBlockMetaData hash size with
      | none => simp [hp, hs] at hc
      | some e1 =>
        simp only [hp, hs, Option.some.injEq] at hc
        subst hc
        obtain ⟨_, _, he1⟩ := SetDiskBlockMetaData_eq e e1 hash size hs
        subst he1
        apply store_forall _ _ _ _ hinv
        refine SoftRejectionInvariant_of_eq e _ ?_ ?_ (hinv p e hp)
        · rfl
        · simp
  | ClearFileInfo =>
    simp only [Heap.call] at hc
    cases hp : h p with
    | none => simp [hp] at hc
    | some e =>
      simp only [hp, Option.some.injEq] at hc
      subst hc
      apply store_forall _ _ _ _ hinv
      refine SoftRejectionInvariant_of_eq e _ ?_ ?_ (hinv p e hp)
      · rfl
      · simp [CBlockIndex.ClearFileInfo]
  | SetChainWork =>
    simp only [Heap.call, SetChainWork] at hc
    cases hp : h p with
    | none => simp [hp] at hc
    | some e =>
      cases hpp : e.pprev with
      | none =>
        simp only [hp, hpp, Option.some.injEq] at hc
        subst hc
        apply store_forall _ _ _ _ hinv
        exact SoftRejectionInvariant_of_eq e _ (by rfl) (by rfl) (hinv p e hp)
      | some pp =>
        cases hpar : h pp with
        | none => simp [hp, hpp, hpar] at hc
        | some par =>
          simp only [hp, hpp, hpar, Option.some.injEq] at hc
          subst hc
          apply store_forall _ _ _ _ hinv
          exact SoftRejectionInvariant_of_eq e _ (by rfl) (by rfl) (hinv p e hp)
  | IgnoreValidationTime =>
    simp only [Heap.call, Heap.IgnoreValidationTime] at hc
    cases hp : h p with
    | none => simp [hp] at hc
    | some e =>
      simp only [hp, Option.some.injEq] at hc
      subst hc
      apply store_forall _ _ _ _ hinv
      exact SoftRejectionInvariant_of_eq e _ (by rfl) (by rfl) (hinv p e hp)

theorem calls_preserve_SoftRejectionInvariant (GetBlockProof : CBlockIndex → Nat)
    (cs : List (Nat × Call)) :
    ∀ (h h1 : Heap), (∀ q e, h q = some e → SoftRejectionInvariant e) →
      Heap.calls GetBlockProof h cs = some h1 →
      ∀ q e, h1 q = some e → SoftRejectionInvariant e := by
  induction cs with
  | nil =>
    intro h h1 hinv hc
    simp only [Heap.calls, Option.some.injEq] at hc
    subst hc
    exact hinv
  | cons pc cs ih =>
    intro h h1 hinv hc
    obtain ⟨p, c⟩ := pc
    simp only [Heap.calls] at hc
    cases hstep : h.call GetBlockProof p c with
    | none => simp [hstep] at hc
    | some h2 =>
      simp only [hstep] at hc
      exact ih h2 h1
        (call_preserves_SoftRejectionInvariant GetBlockProof h h2 p c hinv hstep) hc

theorem SoftRejectionInvariant_of_fresh (e : CBlockIndex) (hc : e.nSoftRejected = -1)
    (hs : e.nStatus = { status := 0 }) : SoftRejectionInvariant e := by
  apply SoftRejectionInvariant_of_flag
  · rw [hc]
  · rw [hs, hc]
    decide

theorem softRejectionHeap_invariant :
    ∀ q e, softRejectionHeap q = some e → SoftRejectionInvariant e := by
  intro q e hq
  unfold softRejectionHeap at hq
  split_ifs at hq <;> cases hq <;> exact SoftRejectionInvariant_of_fresh _ rfl rfl

/-- Claim C11: the soft-rejection invariant (counter at least -1, and
HAS_SOFT_REJ set iff the counter is at least 0 iff `IsSoftRejected()`) holds
for every freshly constructed entry, whatever its links, and whenever it
holds for all entries in memory it holds for every entry after any sequence
of `SetSoftRejectedFor`, `SetSoftRejectedFromParent`, `RaiseValidity`,
`SetDiskBlockData`, `SetDiskBlockMetaData`, `ClearFileInfo`, `SetChainWork`
and `IgnoreValidationTime` calls whose assertions hold. -/
theorem C11_soft_rejection_invariant (GetBlockProof : CBlockIndex → Nat) (h : Heap)
    (cs : List (Nat × Call)) (p : Nat) (e : CBlockIndex)
    (hinit : ∀ q e0, h q = some e0 → SoftRejectionInvariant e0)
    (hrun : (Heap.calls GetBlockProof h cs).bind (fun h1 => h1 p) = some e) :
    (e.nSoftRejected ≥ -1 ∧
      (e.nStatus.hasDataForSoftRejection = true ↔ e.nSoftRejected ≥ 0) ∧
      (e.nSoftRejected ≥ 0 ↔ e.IsSoftRejected = true)) ∧
    (∀ (block : CBlockHeader) (pprev pskip phashBlock : Option Nat) (nHeight : Int),
      SoftRejectionInvariant
        { CBlockIndex.fromHeader block with
          pprev := pprev, pskip := pskip, phashBlock := phashBlock, nHeight := nHeight }) ∧
    SoftRejectionInvariant ({} : CBlockIndex) := by
  refine ⟨?_, ?_, by decide⟩
  · cases hc : Heap.calls GetBlockProof h cs with
    | none => simp [hc] at hrun
    | some h1 =>
      simp only [hc, Option.some_bind] at hrun
      exact calls_preserve_SoftRejectionInvariant GetBlockProof cs h h1 hinit hc p e hrun
  · intro block pprev pskip phashBlock nHeight
    exact SoftRejectionInvariant_of_fresh _ rfl rfl

/-- Witness for C11: the entry b of the chain g, a, b, c, d after the calls
of `softRejectionCalls`. -/
theorem C11_soft_rejection_invariant_witness :
    ∃ e, (Heap.calls (fun _ => 1) softRejectionHeap softRejectionCalls).bind
        (fun h1 => h1 3) = some e ∧
      e.GetSoftRejectedFor = 1 ∧
      (e.nSoftRejected ≥ -1 ∧
        (e.nStatus.hasDataForSoftRejection = true ↔ e.nSoftRejected ≥ 0) ∧
        (e.nSoftRejected ≥ 0 ↔ e.IsSoftRejected = true)) :=
  ⟨_, rfl, by decide,
    (C11_soft_rejection_invariant (fun _ => 1) softRejectionHeap softRejectionCalls 3 _
      softRejectionHeap_invariant rfl).1⟩

theorem SetSoftRejectedFor_unfold (h : Heap) (p : Nat) (n : Int) (e : CBlockIndex)
    (he : h p = some e) :
    (∀ pp parent, -1 ≤ n → e.pprev = some pp → h pp = some parent →
      parent.nSoftRejected ≤ 0 →
      SetSoftRejectedFor h p n = some (h.store p
        { e with
          nSoftRejected := n
          nStatus := e.nStatus.withDataForSoftRejection (decide (n ≥ 0)) }) ∧
      SetSoftRejectedForOutcome h p n = some (Outcome.returned (h.store p
        { e with
          nSoftRejected := n
          nStatus := e.nStatus.withDataForSoftRejection (decide (n ≥ 0)) }))) ∧
    (¬ (-1 ≤ n) → SetSoftRejectedFor h p n = none ∧
      SetSoftRejectedForOutcome h p n = some (Outcome.assertionFailed h)) ∧
    (e.pprev = none → SetSoftRejectedFor h p n = none ∧
      SetSoftRejectedForOutcome h p n = some (Outcome.assertionFailed h)) ∧
    (∀ pp parent, e.pprev = some pp → h pp = some parent → 0 < parent.nSoftRejected →
      SetSoftRejectedFor h p n = none ∧
      SetSoftRejectedForOutcome h p n = some (Outcome.assertionFailed h)) := by
  unfold SetSoftRejectedFor SetSoftRejectedForOutcome
    CBlockIndex.ShouldBeConsideredSoftRejectedBecauseOfParentNL
  rw [he]
  refine ⟨?_, ?_, ?_, ?_⟩
  · intro pp parent hn hpp hpar hle
    have hle' : ¬ (parent.nSoftRejected > 0) := by omega
    simp [hn, hpp, hpar, hle', CBlockIndex.IsSoftRejectedNL]
  · intro hn
    simp [hn]
  · intro hpp
    by_cases hn : -1 ≤ n <;> simp [hn, hpp]
  · intro pp parent hpp hpar hpos
    by_cases hn : -1 ≤ n <;> simp [hn, hpp, hpar, hpos]

/-- Claim C12: for an entry whose parent pointer, if any, points to an
entry, `SetSoftRejectedFor(n)` succeeds iff `n ≥ -1`, the entry has a parent
and the parent's counter is `≤ 0`.  When it succeeds, the counter is `n`
afterwards, HAS_SOFT_REJ is set iff `n ≥ 0`, and nothing else of the entry
(nor any other entry) changes: all other bits of the status word and all
other fields are as before.  In every other case an assertion fails, with
the memory, and so the entry's counter and status, unchanged. -/
theorem C12_SetSoftRejectedFor (h : Heap) (p : Nat) (n : Int) (e : CBlockIndex)
    (he : h p = some e)
    (hpar : ∀ pp, e.pprev = some pp → (h pp).isSome = true) :
    ((∃ h1, SetSoftRejectedForOutcome h p n = some (Outcome.returned h1)) ↔
      (n ≥ -1 ∧ ∃ pp parent, e.pprev = some pp ∧ h pp = some parent ∧
        parent.nSoftRejected ≤ 0)) ∧
    ((n ≥ -1 ∧ ∃ pp parent, e.pprev = some pp ∧ h pp = some parent ∧
        parent.nSoftRejected ≤ 0) →
      ∃ h1 e1, SetSoftRejectedForOutcome h p n = some (Outcome.returned h1) ∧
        SetSoftRejectedFor h p n = some h1 ∧
        h1 p = some e1 ∧
        (∀ q, q ≠ p → h1 q = h q) ∧
        e1.GetSoftRejectedFor = n ∧
        e1.nStatus.hasDataForSoftRejection = decide (n ≥ 0) ∧
        e1.nStatus.status &&& BlockStatus.not32 BlockStatus.HAS_SOFT_REJ_FLAG =
          e.nStatus.status &&& BlockStatus.not32 BlockStatus.HAS_SOFT_REJ_FLAG ∧
        { e1 with nSoftRejected := e.nSoftRejected, nStatus := e.nStatus } = e) ∧
    (¬ (n ≥ -1 ∧ ∃ pp parent, e.pprev = some pp ∧ h pp = some parent ∧
        parent.nSoftRejected ≤ 0) →
      SetSoftRejectedForOutcome h p n = some (Outcome.assertionFailed h) ∧
      SetSoftRejectedFor h p n = none ∧
      h p = some e) := by
  obtain ⟨hok, hneg, hnone, hpos⟩ := SetSoftRejectedFor_unfold h p n e he
  have hfail : ¬ (n ≥ -1 ∧ ∃ pp parent, e.pprev = some pp ∧ h pp = some parent ∧
        parent.nSoftRejected ≤ 0) →
      SetSoftRejectedFor h p n = none ∧
      SetSoftRejectedForOutcome h p n = some (Outcome.assertionFailed h) := by
    intro hc
    by_cases hn : -1 ≤ n
    · cases hpp : e.pprev with
      | none => exact hnone hpp
      | some pp =>
        obtain ⟨parent, hparent⟩ := Option.isSome_iff_exists.mp (hpar pp hpp)
        apply hpos pp parent hpp hparent
        by_contra hle
        exact hc ⟨hn, pp, parent, hpp, hparent, by omega⟩
    · exact hneg hn
  refine ⟨⟨?_, ?_⟩, ?_, ?_⟩
  · rintro ⟨h1, hret⟩
    by_contra hc
    rw [(hfail hc).2] at hret
    cases hret
  · rintro ⟨hn, pp, parent, hpp, hparent, hle⟩
    exact ⟨_, (hok pp parent hn hpp hparent hle).2⟩
  · rintro ⟨hn, pp, parent, hpp, hparent, hle⟩
    refine ⟨_, _, (hok pp parent hn hpp hparent hle).2, (hok pp parent hn hpp hparent hle).1,
      store_same _ _ _, fun q hq => store_other _ _ _ _ hq, rfl, ?_, ?_, rfl⟩
    · simp
    · unfold BlockStatus.withDataForSoftRejection
      simp only
      apply with_flag_and_other
      · exact Nat.and_self _
      · decide
  · intro hc
    exact ⟨(hfail hc).2, (hfail hc).1, he⟩

/-- Witness for C12: in `softRejectedHeap` the entry b (address 3) is soft
rejected because of its parent a (counter 2), so `SetSoftRejectedFor(0)` on b
fails an assertion and leaves the memory as it is. -/
theorem C12_SetSoftRejectedFor_witness :
    SetSoftRejectedFor softRejectedHeap 3 0 = none ∧
    (softRejectedHeap 3).map CBlockIndex.GetSoftRejectedFor = some 1 :=
  ⟨((C12_SetSoftRejectedFor softRejectedHeap 3 0
      { nHeight := 2, pprev := some 2, nSoftRejected := 1, nStatus := { status := 0x100 } }
      (by decide)
      (by
        intro pp hpp
        cases hpp
        decide)).2.2
      (by
        rintro ⟨_, pp, parent, hpp, hparent, hle⟩
        cases hpp
        have h2 : softRejectedHeap 2 = some
            { nHeight := 1, pprev := some 1, nSoftRejected := 2,
              nStatus := { status := 0x100 } } := by decide
        rw [h2] at hparent
        cases hparent
        exact absurd hle (by decide))).2.1,
   by decide⟩

/-! ## Block header of an entry -/

theorem GetBlockHeader_eq (h : Heap) (q : Nat) (e : CBlockIndex) (he : h q = some e) :
    (e.pprev = none →
      GetBlockHeader h q = some
        { nVersion := e.nVersion, hashPrevBlock := 0, hashMerkleRoot := e.hashMerkleRoot,
          nTime := e.nTime, nBits := e.nBits, nNonce := e.nNonce }) ∧
    (∀ pp parent hash, e.pprev = some pp → h pp = some parent →
      parent.GetBlockHash = some hash →
      GetBlockHeader h q = some
        { nVersion := e.nVersion, hashPrevBlock := hash, hashMerkleRoot := e.hashMerkleRoot,
          nTime := e.nTime, nBits := e.nBits, nNonce := e.nNonce }) := by
  unfold GetBlockHeader
  rw [he]
  constructor
  · intro hp
    simp only [hp]
  · intro pp parent hash hp hpar hhash
    simp only [hp, hpar, hhash]

/-- Claim C21: let the entry at `this` be the one constructed from the
header `block` and linked either to no parent, when `block.hashPrevBlock` is
the zero hash, or to a parent whose block hash is `block.hashPrevBlock`.
Then `GetBlockHeader()` returns `block`, equal in all six fields.  In general
`GetBlockHeader()` returns the entry's own version, merkle root, time, bits
and nonce, with the previous-block hash taken from the parent's hash, or
zero for an entry without parent. -/
theorem C21_header_round_trip (h : Heap) (this : Nat) (block : CBlockHeader)
    (pprev phashBlock pskip : Option Nat) (nHeight : Int)
    (he : h this = some
      { CBlockIndex.fromHeader block with
        pprev := pprev, phashBlock := phashBlock, pskip := pskip, nHeight := nHeight })
    (hlink : (pprev = none ∧ block.hashPrevBlock = 0) ∨
      (∃ pp parent, pprev = some pp ∧ h pp = some parent ∧
        parent.GetBlockHash = some block.hashPrevBlock)) :
    GetBlockHeader h this = some block ∧
    (∀ (q : Nat) (e : CBlockIndex), h q = some e →
      (e.pprev = none →
        GetBlockHeader h q = some
          { nVersion := e.nVersion, hashPrevBlock := 0,
            hashMerkleRoot := e.hashMerkleRoot, nTime := e.nTime, nBits := e.nBits,
            nNonce := e.nNonce }) ∧
      (∀ pp parent hash, e.pprev = some pp → h pp = some parent →
        parent.GetBlockHash = some hash →
        GetBlockHeader h q = some
          { nVersion := e.nVersion, hashPrevBlock := hash,
            hashMerkleRoot := e.hashMerkleRoot, nTime := e.nTime, nBits := e.nBits,
            nNonce := e.nNonce })) := by
  refine ⟨?_, fun q e hq => GetBlockHeader_eq h q e hq⟩
  obtain ⟨h0, h1⟩ := GetBlockHeader_eq h this _ he
  rcases hlink with ⟨hnone, hzero⟩ | ⟨pp, parent, hpp, hpar, hhash⟩
  · rw [h0 hnone, ← hzero]
    rfl
  · rw [h1 pp parent block.hashPrevBlock hpp hpar hhash]
    rfl

/-- Witness for C21: the entry at address 2 of `headerHeap`. -/
theorem C21_header_round_trip_witness :
    GetBlockHeader headerHeap 2 = some
      { nVersion := 2, hashPrevBlock := 77, hashMerkleRoot := 5, nTime := 100, nBits := 3,
        nNonce := 9 } :=
  (C21_header_round_trip headerHeap 2
    { nVersion := 2, hashPrevBlock := 77, hashMerkleRoot := 5, nTime := 100, nBits := 3,
      nNonce := 9 }
    (some 1) none none 1 rfl
    (Or.inr ⟨1, { phashBlock := some 77 }, rfl, rfl, rfl⟩)).1

/-! ## Status word layout -/

theorem withClearedFailureFlags_and (s : BlockStatus) (g : Nat)
    (hg : BlockStatus.not32 BlockStatus.INVALID_MASK &&& g = g) :
    s.withClearedFailureFlags.status &&& g = s.status &&& g := by
  unfold BlockStatus.withClearedFailureFlags
  simp only
  rw [Nat.and_assoc, hg]

theorem withClearedFailureFlags_view (s : BlockStatus) :
    s.withClearedFailureFlags.view =
      { s.view with hasFailed := false, hasFailedParent := false } := by
  have hf : s.withClearedFailureFlags.status &&& BlockStatus.FAILED_FLAG = 0 := by
    unfold BlockStatus.withClearedFailureFlags
    simp only
    rw [Nat.and_assoc]
    have h0 : BlockStatus.not32 BlockStatus.INVALID_MASK &&& BlockStatus.FAILED_FLAG = 0 := by
      decide
    rw [h0, Nat.and_zero]
  have hp : s.withClearedFailureFlags.status &&& BlockStatus.FAILED_PARENT_FLAG = 0 := by
    unfold BlockStatus.withClearedFailureFlags
    simp only
    rw [Nat.and_assoc]
    have h0 : BlockStatus.not32 BlockStatus.INVALID_MASK &&&
        BlockStatus.FAILED_PARENT_FLAG = 0 := by
      decide
    rw [h0, Nat.and_zero]
  unfold BlockStatus.view BlockStatus.getValidity BlockStatus.hasData BlockStatus.hasUndo
    BlockStatus.hasFailed BlockStatus.hasFailedParent BlockStatus.hasDiskBlockMetaData
    BlockStatus.hasDataForSoftRejection
  rw [hf, hp, withClearedFailureFlags_and s _ (by decide),
    withClearedFailureFlags_and s _ (by decide), withClearedFailureFlags_and s _ (by decide),
    withClearedFailureFlags_and s _ (by decide), withClearedFailureFlags_and s _ (by decide)]
  simp

theorem with_flag_lt (s f : Nat) (b : Bool) (hs : s < 2 ^ 9) (hf : f < 2 ^ 9) :
    ((s &&& BlockStatus.not32 f) ||| (if b = true then f else 0)) < 2 ^ 9 := by
  apply Nat.or_lt_two_pow
  · exact Nat.lt_of_le_of_lt Nat.and_le_left hs
  · cases b
    · simp
    · simpa using hf

theorem applyOp_lt (s : BlockStatus) (op : StatusOp) (hs : s.status < 2 ^ 9) :
    (s.applyOp op).status < 2 ^ 9 := by
  cases op with
  | withValidity v =>
    unfold BlockStatus.applyOp BlockStatus.withValidity
    apply Nat.or_lt_two_pow
    · exact Nat.lt_of_le_of_lt Nat.and_le_left hs
    · cases v <;> decide
  | withData b => exact with_flag_lt _ _ b hs (by decide)
  | withUndo b => exact with_flag_lt _ _ b hs (by decide)
  | withFailed b => exact with_flag_lt _ _ b hs (by decide)
  | withFailedParent b => exact with_flag_lt _ _ b hs (by decide)
  | withDiskBlockMetaData b => exact with_flag_lt _ _ b hs (by decide)
  | withDataForSoftRejection b => exact with_flag_lt _ _ b hs (by decide)
  | withClearedFailureFlags =>
    unfold BlockStatus.applyOp BlockStatus.withClearedFailureFlags
    exact Nat.lt_of_le_of_lt Nat.and_le_left hs

theorem applyOps_lt (ops : List StatusOp) :
    ∀ s : BlockStatus, s.status < 2 ^ 9 → (s.applyOps ops).status < 2 ^ 9 := by
  induction ops with
  | nil => intro s hs; exact hs
  | cons op ops ih =>
    intro s hs
    exact ih (s.applyOp op) (applyOp_lt s op hs)

set_option maxRecDepth 100000 in
theorem word_of_lt : ∀ n : Fin 512,
    n.val = (n.val &&& 7) + 8 * (decide (n.val &&& 8 ≠ 0)).toNat
      + 16 * (decide (n.val &&& 16 ≠ 0)).toNat
      + 32 * (decide (n.val &&& 32 ≠ 0)).toNat
      + 64 * (decide (n.val &&& 64 ≠ 0)).toNat
      + 128 * (decide (n.val &&& 128 ≠ 0)).toNat
      + 256 * (decide (n.val &&& 256 ≠ 0)).toNat := by
  decide

theorem view_word_of_lt (s : BlockStatus) (hs : s.status < 2 ^ 9) :
    s.status = s.view.word :=
  word_of_lt ⟨s.status, hs⟩

/-- Claim C22: for every status reached from the default status by a
sequence of `withValidity` (one of the six levels), `withData`, `withUndo`,
`withFailed`, `withFailedParent`, `withDiskBlockMetaData`,
`withDataForSoftRejection` and `withClearedFailureFlags`, the status word is
`validity + 8*hasData + 16*hasUndo + 32*hasFailed + 64*hasFailedParent +
128*hasDiskBlockMetaData + 256*hasDataForSoftRejection`, below `2^9`; this
also holds after one more operation `op`.  Each operation sets the getter it
names and leaves every other getter's result as it was
(`withClearedFailureFlags` sets both failure flags to false).  The
operations are functions of the receiver and return a new status. -/
theorem C22_status_word_layout (ops : List StatusOp) (op : StatusOp) (s : BlockStatus)
    (b : Bool) (v : BlockValidity) :
    (BlockStatus.applyOps {} ops).status = (BlockStatus.applyOps {} ops).view.word ∧
    (BlockStatus.applyOps {} ops).status < 2 ^ 9 ∧
    ((BlockStatus.applyOps {} ops).applyOp op).status =
      ((BlockStatus.applyOps {} ops).applyOp op).view.word ∧
    (s.withValidity v).view = { s.view with validity := v.toNat } ∧
    (s.withData b).view = { s.view with hasData := b } ∧
    (s.withUndo b).view = { s.view with hasUndo := b } ∧
    (s.withFailed b).view = { s.view with hasFailed := b } ∧
    (s.withFailedParent b).view = { s.view with hasFailedParent := b } ∧
    (s.withDiskBlockMetaData b).view = { s.view with hasDiskBlockMetaData := b } ∧
    (s.withDataForSoftRejection b).view = { s.view with hasDataForSoftRejection := b } ∧
    s.withClearedFailureFlags.view =
      { s.view with hasFailed := false, hasFailedParent := false } := by
  have h0 : ({} : BlockStatus).status < 2 ^ 9 := by decide
  have hlt := applyOps_lt ops {} h0
  refine ⟨view_word_of_lt _ hlt, hlt, view_word_of_lt _ (applyOp_lt _ op hlt), ?_, ?_, ?_, ?_,
    ?_, ?_, ?_, withClearedFailureFlags_view s⟩
  · simp [BlockStatus.view, getValidity_withValidity]
  · simp [BlockStatus.view]
  · simp [BlockStatus.view]
  · simp [BlockStatus.view]
  · simp [BlockStatus.view]
  · simp [BlockStatus.view]
  · simp [BlockStatus.view]

/-! ## Validity never decreases -/

theorem ValidityKept_refl (e : CBlockIndex) : ValidityKept e e :=
  ⟨Nat.le_refl _, rfl, rfl⟩

theorem ValidityKept_of_status_eq (e e1 : CBlockIndex) (hs : e1.nStatus = e.nStatus) :
    ValidityKept e e1 := by
  unfold ValidityKept
  rw [hs]
  exact ⟨Nat.le_refl _, rfl, rfl⟩

theorem ValidityKept_soft_rejection (e : CBlockIndex) (x : Int) (b : Bool) :
    ValidityKept e
      { e with nSoftRejected := x, nStatus := e.nStatus.withDataForSoftRejection b } := by
  unfold ValidityKept
  simp

theorem RaiseValidity_ValidityKept (e : CBlockIndex) (now : Int) (v : BlockValidity) :
    ValidityKept e (e.RaiseValidity now v).2 := by
  unfold CBlockIndex.RaiseValidity
  by_cases hinv : e.nStatus.isInvalid = true
  · rw [if_pos hinv]
    exact ValidityKept_refl e
  · by_cases hge : e.nStatus.getValidity ≥ v.toNat
    · rw [if_neg hinv, if_pos hge]
      exact ValidityKept_refl e
    · rw [if_neg hinv, if_neg hge]
      unfold ValidityKept
      split_ifs
      · simp only [getValidity_withValidity, hasFailed_withValidity,
          hasFailedParent_withValidity, and_self, and_true]
        omega
      · simp only [getValidity_withValidity, hasFailed_withValidity,
          hasFailedParent_withValidity, and_self, and_true]
        omega

theorem SetDiskBlockData_ValidityKept (e : CBlockIndex) (now : Int) (c : Nat)
    (pos : CDiskBlockPos) (m : CDiskBlockMetaData) :
    ValidityKept e (e.SetDiskBlockData now c pos m) := by
  rw [SetDiskBlockData_eq]
  unfold ValidityKept
  simp only
  have h3 : BlockValidity.TRANSACTIONS.toNat = 3 := rfl
  refine ⟨?_, ?_, ?_⟩
  · split_ifs with h1 h2 h2
    · simp
    · simp only [getValidity_withDiskBlockMetaData, getValidity_withValidity, h3]
      omega
    · simp
    · simp only [getValidity_withValidity, h3]
      omega
  · split_ifs <;> simp
  · split_ifs <;> simp

theorem SetSoftRejectedFor_store (h h1 : Heap) (p : Nat) (n : Int)
    (hset : SetSoftRejectedFor h p n = some h1) :
    ∃ e, h p = some e ∧
      h1 = h.store p
        { e with
          nSoftRejected := n
          nStatus := e.nStatus.withDataForSoftRejection (decide (n ≥ 0)) } := by
  cases he : h p with
  | none => simp [SetSoftRejectedFor, he] at hset
  | some e =>
    obtain ⟨hok, hneg, hnone, hpos⟩ := SetSoftRejectedFor_unfold h p n e he
    refine ⟨e, rfl, ?_⟩
    by_cases hn : -1 ≤ n
    · cases hpp : e.pprev with
      | none =>
        rw [(hnone hpp).1] at hset
        cases hset
      | some pp =>
        cases hpar : h pp with
        | none =>
          simp [SetSoftRejectedFor, he,
            CBlockIndex.ShouldBeConsideredSoftRejectedBecauseOfParentNL, hpp, hpar] at hset
        | some parent =>
          by_cases hle : parent.nSoftRejected ≤ 0
          · rw [(hok pp parent hn hpp hpar hle).1] at hset
            cases hset
            rw [hpp]
          · rw [(hpos pp parent hpp hpar (by omega)).1] at hset
            cases hset
    · rw [(hneg hn).1] at hset
      cases hset

theorem SetSoftRejectedFromParent_store (h h1 : Heap) (p : Nat)
    (hset : SetSoftRejectedFromParent h p = some h1) :
    ∃ e x b, h p = some e ∧
      h1 = h.store p
        { e with nSoftRejected := x, nStatus := e.nStatus.withDataForSoftRejection b } := by
  unfold SetSoftRejectedFromParent
    CBlockIndex.ShouldBeConsideredSoftRejectedBecauseOfParentNL at hset
  cases he : h p with
  | none => simp [he] at hset
  | some e =>
    rw [he] at hset
    cases hpp : e.pprev with
    | none => simp [hpp] at hset
    | some pp =>
      cases hpar : h pp with
      | none => simp [hpp, hpar] at hset
      | some parent =>
        simp only [hpp, hpar, Option.some_bind] at hset
        by_cases hpos : parent.nSoftRejected > 0
        · simp only [hpos, decide_True, Option.some.injEq] at hset
          refine ⟨e, parent.nSoftRejected - 1, true, rfl, ?_⟩
          rw [← hset, hpp]
        · simp only [hpos, decide_False, Option.some.injEq] at hset
          refine ⟨e, -1, false, rfl, ?_⟩
          rw [← hset, hpp]

theorem call_ValidityKept (GetBlockProof : CBlockIndex → Nat) (h h1 : Heap) (p : Nat)
    (c : Call) (hc : h.call GetBlockProof p c = some h1) :
    ∃ e e1, h p = some e ∧ h1 = h.store p e1 ∧ ValidityKept e e1 := by
  cases c with
  | SetSoftRejectedFor n =>
    obtain ⟨e, he, h1eq⟩ := SetSoftRejectedFor_store h h1 p n hc
    exact ⟨e, _, he, h1eq, ValidityKept_soft_rejection e _ _⟩
  | SetSoftRejectedFromParent =>
    obtain ⟨e, x, b, he, h1eq⟩ := SetSoftRejectedFromParent_store h h1 p hc
    exact ⟨e, _, he, h1eq, ValidityKept_soft_rejection e x b⟩
  | RaiseValidity now v =>
    simp only [Heap.call] at hc
    cases hp : h p with
    | none => simp [hp] at hc
    | some e =>
      simp only [hp, Option.some.injEq] at hc
      exact ⟨e, _, rfl, hc.symm, RaiseValidity_ValidityKept e now v⟩
  | SetDiskBlockData now n pos m =>
    simp only [Heap.call] at hc
    cases hp : h p with
    | none => simp [hp] at hc
    | some e =>
      simp only [hp, Option.some.injEq] at hc
      exact ⟨e, _, rfl, hc.symm, SetDiskBlockData_ValidityKept e now n pos m⟩
  | SetDiskBlockMetaData hash size =>
    simp only [Heap.call] at hc
    cases hp : h p with
    | none => simp [hp] at hc
    | some e =>
      cases hs : e.SetDiskBlockMetaData hash size with
      | none => simp [hp, hs] at hc
      | some e1 =>
        simp only [hp, hs, Option.some.injEq] at hc
        obtain ⟨_, _, he1⟩ := SetDiskBlockMetaData_eq e e1 hash size hs
        refine ⟨e, e1, rfl, hc.symm, ?_⟩
        subst he1
        unfold ValidityKept
        simp
  | ClearFileInfo =>
    simp only [Heap.call] at hc
    cases hp : h p with
    | none => simp [hp] at hc
    | some e =>
      simp only [hp, Option.some.injEq] at hc
      refine ⟨e, _, rfl, hc.symm, ?_⟩
      unfold ValidityKept
      simp [CBlockIndex.ClearFileInfo]
  | SetChainWork =>
    simp only [Heap.call, SetChainWork] at hc
    cases hp : h p with
    | none => simp [hp] at hc
    | some e =>
      cases hpp : e.pprev with
      | none =>
        simp only [hp, hpp, Option.some.injEq] at hc
        exact ⟨e, _, rfl, hc.symm, ValidityKept_of_status_eq e _ (by rfl)⟩
      | some pp =>
        cases hpar : h pp with
        | none => simp [hp, hpp, hpar] at hc
        | some par =>
          simp only [hp, hpp, hpar, Option.some.injEq] at hc
          exact ⟨e, _, rfl, hc.symm, ValidityKept_of_status_eq e _ (by rfl)⟩
  | IgnoreValidationTime =>
    simp only [Heap.call, Heap.IgnoreValidationTime] at hc
    cases hp : h p with
    | none => simp [hp] at hc
    | some e =>
      simp only [hp, Option.some.injEq] at hc
      exact ⟨e, _, rfl, hc.symm, ValidityKept_of_status_eq e _ (by rfl)⟩

/-- Claim C23: for every call of `RaiseValidity`, `SetDiskBlockData`,
`SetDiskBlockMetaData`, `ClearFileInfo`, `SetSoftRejectedFor`,
`SetSoftRejectedFromParent`, `SetChainWork` or `IgnoreValidationTime` that
passes its assertions, on any entry, every entry in memory has afterwards a
validity level at least the one it had before, and its FAILED and
FAILED_PARENT bits are as before. -/
theorem C23_validity_never_decreases (GetBlockProof : CBlockIndex → Nat) (h h1 : Heap)
    (p : Nat) (c : Call) (hc : h.call GetBlockProof p c = some h1)
    (q : Nat) (e : CBlockIndex) (he : h q = some e) :
    ∃ e1, h1 q = some e1 ∧
      e1.nStatus.getValidity ≥ e.nStatus.getValidity ∧
      e1.nStatus.hasFailed = e.nStatus.hasFailed ∧
      e1.nStatus.hasFailedParent = e.nStatus.hasFailedParent := by
  obtain ⟨e0, e1, hp, h1eq, hkept⟩ := call_ValidityKept GetBlockProof h h1 p c hc
  subst h1eq
  by_cases hqp : q = p
  · subst hqp
    rw [hp] at he
    cases he
    exact ⟨e1, store_same _ _ _, hkept⟩
  · exact ⟨e, by rw [store_other _ _ _ _ hqp]; exact he, ValidityKept_refl e⟩

/-- Witness for C23: `RaiseValidity(TREE)` on the entry b (address 3) of the
chain g, a, b, c, d. -/
theorem C23_validity_never_decreases_witness :
    ∃ h1, softRejectionHeap.call (fun _ => 1) 3 (Call.RaiseValidity 0 BlockValidity.TREE)
        = some h1 ∧
      ∃ e1, h1 3 = some e1 ∧
        e1.nStatus.getValidity ≥ ({} : BlockStatus).getValidity ∧
        e1.nStatus.hasFailed = ({} : BlockStatus).hasFailed ∧
        e1.nStatus.hasFailedParent = ({} : BlockStatus).hasFailedParent :=
  ⟨_, rfl, C23_validity_never_decreases (fun _ => 1) softRejectionHeap _ 3
    (Call.RaiseValidity 0 BlockValidity.TREE) rfl 3 _ rfl⟩
